import Mathlib

/-!
Verification of the openGrid web core of `ogt`: the per-summit eligibility
engine, the grid-editor operations, and the compact text codec, from
`packages/ogt-web/src/lib` (`types.ts`, the codec file, the eligibility
file, `defaults.ts`) and `packages/ogt-web/src/hooks/useGridState.ts`.

The embedding is shallow: JavaScript strings are `List Char`, byte buffers
are `List Nat` (each entry < 256), millimetre scalars are `ℚ`, and
`Math.round`, `Uint8Array` coercion and `parseInt(·, 10)` are modelled
explicitly.  Out-of-range array reads, which in JavaScript yield a falsy
`undefined` wherever these files consume them, are modelled with `List.getD`
and its default value.
-/

namespace Ogt

/-! ### Data model (`lib/types.ts`) -/

/-- `ScrewSize` of `lib/types.ts`: millimetre scalars. -/
structure ScrewSize where
  diameter : ℚ
  head_diameter : ℚ
  head_inset : ℚ
deriving DecidableEq

/-- `SummitFeatures` of `lib/types.ts`: `connector_angle` is
`number | null`, modelled as `Option ℤ` (the code only ever stores the
integral angles -90, 0, 90, 180). -/
structure SummitFeatures where
  connector_angle : Option ℤ
  tile_chamfer : Bool
  screw : Bool
deriving DecidableEq

/-- The grid-type tag.  `types.ts` annotates the field with the spelling
`"light"` while the codec and the editor hook both use `"lite"`; the value
space is the two-element tag written `"f"`/`"l"` on the wire, modelled as
one inductive. -/
inductive OpengridType where
  | full
  | lite
deriving DecidableEq

/-- `GridPlan` of `lib/types.ts`. -/
structure GridPlan where
  tiles : List (List Bool)
  summits : List (List SummitFeatures)
  opengrid_type : OpengridType
  screw_size : ScrewSize
deriving DecidableEq

/-! ### JavaScript numeric primitives -/

/-- JavaScript `Math.round` on the rationals the codec feeds it:
round half towards positive infinity, `⌊q + 1/2⌋`. -/
def jsRound (q : ℚ) : ℤ := ⌊q + 1 / 2⌋

/-- Storing an integer into a `Uint8Array` cell: reduction mod 256. -/
def toUint8 (n : ℤ) : ℕ := (n % 256).toNat

/-! ### Defaults (`lib/defaults.ts`) -/

/-- `emptySummit()` of `lib/defaults.ts`. -/
def emptySummit : SummitFeatures :=
  { connector_angle := none, tile_chamfer := false, screw := false }

/-- `DEFAULT_SCREW_SIZE`: diameter 4.2, head diameter 8.0, head inset 1.0 mm. -/
def DEFAULT_SCREW_SIZE : ScrewSize :=
  { diameter := 42 / 10, head_diameter := 8, head_inset := 1 }

/-- `LITE_DEFAULT_SCREW_SIZE`: diameter 4.1, head diameter 7.2, head inset 1.0 mm. -/
def LITE_DEFAULT_SCREW_SIZE : ScrewSize :=
  { diameter := 41 / 10, head_diameter := 72 / 10, head_inset := 1 }

/-- The tile grid of `createEmptyGrid(rows, cols)`: all slots are tiles. -/
def createEmptyGridTiles (rows cols : ℕ) : List (List Bool) :=
  List.replicate rows (List.replicate cols true)

/-- The summit grid of `createEmptyGrid(rows, cols)`: `(rows+1)×(cols+1)`
empty summits. -/
def createEmptyGridSummits (rows cols : ℕ) : List (List SummitFeatures) :=
  List.replicate (rows + 1) (List.replicate (cols + 1) emptySummit)

/-! ### Base64url (codec file, `b64urlEncode` / `b64urlDecode`) -/

/-- The base64url alphabet string `B64`. -/
def B64 : List Char :=
  "ABCDEFGHIJKLMNOPQRSTUVWXYZabcdefghijklmnopqrstuvwxyz0123456789-_".toList

/-- `B64[i]`: indexing the alphabet string. -/
def b64char (i : ℕ) : Char := B64.getD i 'A'

/-- The decoder's `lookup` table: the index of a character in the alphabet,
0 for every other character (entries never written stay 0, and reads past
the table produce `undefined`, which the bitwise operators treat as 0). -/
def lookupB64 (c : Char) : ℕ := (B64.findIdx? (· == c)).getD 0

/-- `b64urlEncode`, one loop iteration (3 input bytes) at a time; the final
short group emits 2 or 3 characters, and no padding is emitted. -/
def b64urlEncode : List ℕ → List Char
  | [] => []
  | [b0] =>
      [b64char ((b0 >>> 2) &&& 63), b64char ((b0 <<< 4) &&& 63)]
  | [b0, b1] =>
      [b64char ((b0 >>> 2) &&& 63), b64char (((b0 <<< 4) ||| (b1 >>> 4)) &&& 63),
        b64char ((b1 <<< 2) &&& 63)]
  | b0 :: b1 :: b2 :: rest =>
      b64char ((b0 >>> 2) &&& 63) :: b64char (((b0 <<< 4) ||| (b1 >>> 4)) &&& 63) ::
        b64char (((b1 <<< 2) ||| (b2 >>> 6)) &&& 63) :: b64char (b2 &&& 63) ::
        b64urlEncode rest

/-- One 4-character group of `b64urlDecode`: the first byte is always
pushed; the second and third only when the character at position 2
(resp. 3) is not `'='`. -/
def b64Group (c0 c1 c2 c3 : Char) : List ℕ :=
  ((lookupB64 c0 <<< 2) ||| (lookupB64 c1 >>> 4)) ::
    ((if c2 = '=' then [] else [((lookupB64 c1 <<< 4) ||| (lookupB64 c2 >>> 2)) &&& 255]) ++
      (if c3 = '=' then [] else [((lookupB64 c2 <<< 6) ||| lookupB64 c3) &&& 255]))

/-- The 4-characters-per-iteration loop of `b64urlDecode` (runs on the
padded string, whose length is a multiple of 4). -/
def b64urlDecodeLoop : List Char → List ℕ
  | c0 :: c1 :: c2 :: c3 :: rest => b64Group c0 c1 c2 c3 ++ b64urlDecodeLoop rest
  | _ => []

/-- `b64urlDecode`: pad with `'='` to a multiple of 4, then decode groups. -/
def b64urlDecode (s : List Char) : List ℕ :=
  b64urlDecodeLoop (s ++ List.replicate ((4 - s.length % 4) % 4) '=')

/-! ### Bit packing (codec file, `bitsToBytes` / `bytesToBits`) -/

/-- One output byte of `bitsToBytes`: 8 bits, most significant first. -/
def byte8 (b0 b1 b2 b3 b4 b5 b6 b7 : Bool) : ℕ :=
  (cond b0 128 0) + (cond b1 64 0) + (cond b2 32 0) + (cond b3 16 0) +
    (cond b4 8 0) + (cond b5 4 0) + (cond b6 2 0) + (cond b7 1 0)

/-- The final, possibly short byte of `bitsToBytes`: missing bits are the
zero bits of the freshly allocated `Uint8Array`. -/
def byteOfBits (c : List Bool) : ℕ :=
  byte8 (c.getD 0 false) (c.getD 1 false) (c.getD 2 false) (c.getD 3 false)
    (c.getD 4 false) (c.getD 5 false) (c.getD 6 false) (c.getD 7 false)

/-- `bitsToBytes`: pack bits 8 at a time, most-significant-bit first,
zero-padding the final byte. -/
def bitsToBytes : List Bool → List ℕ
  | [] => []
  | b0 :: b1 :: b2 :: b3 :: b4 :: b5 :: b6 :: b7 :: rest =>
      byte8 b0 b1 b2 b3 b4 b5 b6 b7 :: bitsToBytes rest
  | c => [byteOfBits c]

/-- Bit `i` as read by `bytesToBits`: `(data[i >> 3] & (1 << (7 - (i & 7)))) !== 0`,
with a read past the buffer acting as 0. -/
def bitAt (data : List ℕ) (i : ℕ) : Bool :=
  (data.getD (i >>> 3) 0) &&& (1 <<< (7 - (i &&& 7))) != 0

/-- `bytesToBits data nBits`. -/
def bytesToBits (data : List ℕ) (nBits : ℕ) : List Bool :=
  (List.range nBits).map (bitAt data)

/-! ### Decimal printing and `parseInt` -/

/-- The character of a decimal digit. -/
def digitChar (d : ℕ) : Char := Char.ofNat (48 + d)

/-- Little-endian decimal digits of `n`, with structural fuel. -/
def natDigitsAux : ℕ → ℕ → List Char
  | 0, _ => []
  | _ + 1, 0 => []
  | fuel + 1, n => digitChar (n % 10) :: natDigitsAux fuel (n / 10)

/-- JavaScript number-to-string for the natural numbers interpolated into
the template literal of `encode` (`rows` and `cols`). -/
def natToChars (n : ℕ) : List Char :=
  if n = 0 then ['0'] else (natDigitsAux n n).reverse

/-- The numeric value of a decimal digit character. -/
def digitVal (c : Char) : ℕ := c.toNat - 48

/-- Value of a block of decimal digit characters, most significant first. -/
def parseDigits (ds : List Char) : ℕ :=
  ds.foldl (fun acc c => 10 * acc + digitVal c) 0

/-- The maximal leading run of decimal digits, or `none` when there is no
digit at all (`parseInt` returns `NaN` then). -/
def parseLeadingDigits (t : List Char) : Option ℕ :=
  let ds := t.takeWhile Char.isDigit
  if ds.isEmpty then none else some (parseDigits ds)

/-- The whitespace skipped by `parseInt` (modelled as the ASCII whitespace
characters). -/
def jsIsSpace (c : Char) : Bool :=
  c = ' ' || c = '\t' || c = '\n' || c = '\r' || c.toNat = 11 || c.toNat = 12

/-- `parseInt(s, 10)`: skip leading whitespace, take an optional sign, then
the maximal digit run; `none` models `NaN`. -/
def parseIntTS (s : List Char) : Option ℤ :=
  let t := s.dropWhile jsIsSpace
  let c := t.headD ' '
  if c = '-' then (parseLeadingDigits (t.drop 1)).map (fun n => -(n : ℤ))
  else if c = '+' then (parseLeadingDigits (t.drop 1)).map (fun n => (n : ℤ))
  else (parseLeadingDigits t).map (fun n => (n : ℤ))

/-! ### Eligibility engine (eligibility file) -/

/-- `isTile(tiles, r, c)`: bounds-checked lookup, out of range gives `false`;
`cols` is the length of the first row (`tiles[0]?.length ?? 0`). -/
def isTile (tiles : List (List Bool)) (r c : ℤ) : Bool :=
  let rows := tiles.length
  let cols := (tiles.headD []).length
  if 0 ≤ r ∧ r < (rows : ℤ) ∧ 0 ≤ c ∧ c < (cols : ℤ) then
    (tiles.getD r.toNat []).getD c.toNat false
  else false

/-- `computeEligibleConnectorPositions`: a `(rows+1)×(cols+1)` grid; summit
`(i,j)` qualifies when its 4 neighbours form a horizontal or a vertical
split. -/
def computeEligibleConnectorPositions (tiles : List (List Bool)) : List (List Bool) :=
  let rows := tiles.length
  let cols := (tiles.headD []).length
  (List.range (rows + 1)).map fun (i : ℕ) =>
    (List.range (cols + 1)).map fun (j : ℕ) =>
      let tl := isTile tiles ((i : ℤ) - 1) ((j : ℤ) - 1)
      let tr := isTile tiles ((i : ℤ) - 1) (j : ℤ)
      let bl := isTile tiles (i : ℤ) ((j : ℤ) - 1)
      let br := isTile tiles (i : ℤ) (j : ℤ)
      (tl == tr && bl == br && tl != bl) || (tl == bl && tr == br && tl != tr)

/-- `computeConnectorDirection(tiles, i, j)`: Z-rotation in degrees of the
connector cutout at summit `(i,j)`. -/
def computeConnectorDirection (tiles : List (List Bool)) (i j : ℤ) : ℤ :=
  let tl := isTile tiles (i - 1) (j - 1)
  let tr := isTile tiles (i - 1) j
  let bl := isTile tiles i (j - 1)
  let br := isTile tiles i j
  if tl == tr && bl == br && tl != bl then (if bl then -90 else 90)
  else if tl == bl && tr == br && tl != tr then (if tr then 0 else 180)
  else 0

/-- `computeEligibleChamferPositions`: summit `(i,j)` qualifies when exactly
1 of its 4 neighbours is a tile. -/
def computeEligibleChamferPositions (tiles : List (List Bool)) : List (List Bool) :=
  let rows := tiles.length
  let cols := (tiles.headD []).length
  (List.range (rows + 1)).map fun (i : ℕ) =>
    (List.range (cols + 1)).map fun (j : ℕ) =>
      ([isTile tiles ((i : ℤ) - 1) ((j : ℤ) - 1), isTile tiles ((i : ℤ) - 1) (j : ℤ),
          isTile tiles (i : ℤ) ((j : ℤ) - 1), isTile tiles (i : ℤ) (j : ℤ)].filter
        id).length == 1

/-- `computeEligibleScrewPositions`: summit `(i,j)` qualifies when all 4 of
its neighbours are tiles. -/
def computeEligibleScrewPositions (tiles : List (List Bool)) : List (List Bool) :=
  let rows := tiles.length
  let cols := (tiles.headD []).length
  (List.range (rows + 1)).map fun (i : ℕ) =>
    (List.range (cols + 1)).map fun (j : ℕ) =>
      isTile tiles ((i : ℤ) - 1) ((j : ℤ) - 1) && isTile tiles ((i : ℤ) - 1) (j : ℤ) &&
        isTile tiles (i : ℤ) ((j : ℤ) - 1) && isTile tiles (i : ℤ) (j : ℤ)

/-- The bounds-checked lookup `isEligible` local to
`computeCornerScrewPositions`. -/
def isEligibleAt (eligible : List (List Bool)) (r c : ℤ) : Bool :=
  let nRows := eligible.length
  let nCols := (eligible.headD []).length
  if 0 ≤ r ∧ r < (nRows : ℤ) ∧ 0 ≤ c ∧ c < (nCols : ℤ) then
    (eligible.getD r.toNat []).getD c.toNat false
  else false

/-- `computeCornerScrewPositions`: keep a screw-eligible position only when
it has no straight run of eligible positions through it on either axis. -/
def computeCornerScrewPositions (eligible : List (List Bool)) : List (List Bool) :=
  let nRows := eligible.length
  let nCols := (eligible.headD []).length
  (List.range nRows).map fun (i : ℕ) =>
    (List.range nCols).map fun (j : ℕ) =>
      if !((eligible.getD i []).getD j false) then false
      else
        let hThrough := isEligibleAt eligible (i : ℤ) ((j : ℤ) - 1) &&
          isEligibleAt eligible (i : ℤ) ((j : ℤ) + 1)
        let vThrough := isEligibleAt eligible ((i : ℤ) - 1) (j : ℤ) &&
          isEligibleAt eligible ((i : ℤ) + 1) (j : ℤ)
        !hThrough && !vThrough

/-- `Eligibility` record of the eligibility file. -/
structure Eligibility where
  connectors : List (List Bool)
  chamfers : List (List Bool)
  screws : List (List Bool)

/-- `computeAllEligibility`. -/
def computeAllEligibility (tiles : List (List Bool)) : Eligibility :=
  { connectors := computeEligibleConnectorPositions tiles
    chamfers := computeEligibleChamferPositions tiles
    screws := computeEligibleScrewPositions tiles }

/-! ### Compact codec (`encode` / `decode`) -/

/-- The seven fields of `encode(plan)`, in wire order:
version, type char, rows, cols, screw bytes, tile bits, summit bits. -/
def encodeParts (plan : GridPlan) : List (List Char) :=
  let rows := plan.tiles.length
  let cols := (plan.tiles.headD []).length
  let typeChar : Char := match plan.opengrid_type with
    | .full => 'f'
    | .lite => 'l'
  let screwBytes : List ℕ :=
    [toUint8 (jsRound (plan.screw_size.diameter * 10)),
      toUint8 (jsRound (plan.screw_size.head_diameter * 10)),
      toUint8 (jsRound (plan.screw_size.head_inset * 10))]
  let screwStr := b64urlEncode screwBytes
  let tileBits := (List.range rows).flatMap fun (r : ℕ) =>
    (List.range cols).map fun (c : ℕ) => (plan.tiles.getD r []).getD c false
  let tilesStr := b64urlEncode (bitsToBytes tileBits)
  let featureBits := (List.range (rows + 1)).flatMap fun (i : ℕ) =>
    (List.range (cols + 1)).map fun (j : ℕ) =>
      let s := (plan.summits.getD i []).getD j emptySummit
      s.connector_angle.isSome || s.tile_chamfer || s.screw
  let featuresStr := b64urlEncode (bitsToBytes featureBits)
  [['0'], [typeChar], natToChars rows, natToChars cols, screwStr, tilesStr, featuresStr]

/-- `encode(plan)`: the template literal joining the seven fields with
`'.'`. -/
def encode (plan : GridPlan) : List Char :=
  List.intercalate ['.'] (encodeParts plan)

/-- The eight distinct errors thrown by `decode`, in source order. -/
inductive DecodeError where
  | badFieldCount (n : ℕ)
  | badVersion
  | badType
  | badDims
  | dimsTooSmall
  | badScrewLength
  | shortTileData
  | shortFeatureData
deriving DecidableEq

/-- The body of `decode` once the seven dot-separated fields are in hand. -/
def decodeFields (version typeChar rStr cStr screwStr tilesStr featuresStr : List Char) :
    Except DecodeError GridPlan :=
  if version ≠ ['0'] then .error .badVersion
  else if typeChar ≠ ['f'] ∧ typeChar ≠ ['l'] then .error .badType
  else
    let opengridType : OpengridType := if typeChar = ['f'] then .full else .lite
    match parseIntTS rStr, parseIntTS cStr with
    | some r, some c =>
      if r < 1 ∨ c < 1 then .error .dimsTooSmall
      else
        let rows := r.toNat
        let cols := c.toNat
        let screwData := b64urlDecode screwStr
        if screwData.length ≠ 3 then .error .badScrewLength
        else
          let screwSize : ScrewSize :=
            { diameter := (screwData.getD 0 0 : ℚ) / 10
              head_diameter := (screwData.getD 1 0 : ℚ) / 10
              head_inset := (screwData.getD 2 0 : ℚ) / 10 }
          let tilesData := b64urlDecode tilesStr
          let nTileBits := rows * cols
          if tilesData.length < (nTileBits + 7) / 8 then .error .shortTileData
          else
            let tileBits := bytesToBits tilesData nTileBits
            let tiles := (List.range rows).map fun (rr : ℕ) =>
              (List.range cols).map fun (cc : ℕ) => tileBits.getD (rr * cols + cc) false
            let connEligible := computeEligibleConnectorPositions tiles
            let chamferEligible := computeEligibleChamferPositions tiles
            let screwEligible := computeEligibleScrewPositions tiles
            let featuresData := b64urlDecode featuresStr
            let nFeatureBits := (rows + 1) * (cols + 1)
            if featuresData.length < (nFeatureBits + 7) / 8 then .error .shortFeatureData
            else
              let featureBits := bytesToBits featuresData nFeatureBits
              let summits := (List.range (rows + 1)).map fun (i : ℕ) =>
                (List.range (cols + 1)).map fun (j : ℕ) =>
                  let bit := featureBits.getD (i * (cols + 1) + j) false
                  if bit then
                    if (connEligible.getD i []).getD j false then
                      { connector_angle := some (computeConnectorDirection tiles (i : ℤ) (j : ℤ))
                        tile_chamfer := false, screw := false }
                    else if (chamferEligible.getD i []).getD j false then
                      { connector_angle := none, tile_chamfer := true, screw := false }
                    else if (screwEligible.getD i []).getD j false then
                      { connector_angle := none, tile_chamfer := false, screw := true }
                    else emptySummit
                  else emptySummit
              .ok { tiles := tiles, summits := summits, opengrid_type := opengridType
                    screw_size := screwSize }
    | _, _ => .error .badDims

/-- `decode(code)`: split on `'.'`, require exactly 7 fields, then decode. -/
def decode (code : List Char) : Except DecodeError GridPlan :=
  match code.splitOn '.' with
  | [version, typeChar, rStr, cStr, screwStr, tilesStr, featuresStr] =>
      decodeFields version typeChar rStr cStr screwStr tilesStr featuresStr
  | parts => .error (.badFieldCount parts.length)

/-- Modelled from the spec: the decode-validation condition list of C4. -/
def decodeFieldsFailB (version typeChar rStr cStr screwStr tilesStr featuresStr : List Char) :
    Bool :=
  decide (version ≠ ['0']) || (decide (typeChar ≠ ['f']) && decide (typeChar ≠ ['l'])) ||
    (match parseIntTS rStr, parseIntTS cStr with
     | some r, some c =>
         decide (r < 1) || decide (c < 1) ||
           decide ((b64urlDecode screwStr).length ≠ 3) ||
           decide ((b64urlDecode tilesStr).length < (r.toNat * c.toNat + 7) / 8) ||
           decide ((b64urlDecode featuresStr).length < ((r.toNat + 1) * (c.toNat + 1) + 7) / 8)
     | _, _ => true)

def decodeFailB (code : List Char) : Bool :=
  match code.splitOn '.' with
  | [version, typeChar, rStr, cStr, screwStr, tilesStr, featuresStr] =>
      decodeFieldsFailB version typeChar rStr cStr screwStr tilesStr featuresStr
  | _ => true

/-- Concrete code with a hidden tile and all four summit-activity bits set. -/
def c10code : List Char :=
  ['0', '.', 'f', '.', '1', '.', '1', '.', 'A', 'A', 'A', 'A', '.', 'A', 'A', '.', '8', 'A']

def c10plan : GridPlan :=
  { tiles := [[false]]
    summits := [[emptySummit, emptySummit], [emptySummit, emptySummit]]
    opengrid_type := .full
    screw_size :=
      { diameter := ((0 : ℕ) : ℚ) / 10
        head_diameter := ((0 : ℕ) : ℚ) / 10
        head_inset := ((0 : ℕ) : ℚ) / 10 } }

/-! ### Editor state (`hooks/useGridState.ts`) -/

/-- JavaScript `Array.prototype.map` with the element index, shifted start. -/
def mapWithIdxFrom (f : α → ℕ → β) : ℕ → List α → List β
  | _, [] => []
  | i, a :: as => f a i :: mapWithIdxFrom f (i + 1) as

/-- JavaScript `Array.prototype.map((x, i) => ...)`. -/
def mapWithIdx (f : α → ℕ → β) (l : List α) : List β := mapWithIdxFrom f 0 l

/-- `pruneSummits(summits, eligibility)`: every feature field is kept only
when its governing eligibility entry is truthy, else reset to inactive
(`eligibility.connectors[i]?.[j]` with optional chaining is `getD`). -/
def pruneSummits (summits : List (List SummitFeatures)) (e : Eligibility) :
    List (List SummitFeatures) :=
  mapWithIdx (fun row i =>
    mapWithIdx (fun s j =>
      { connector_angle :=
          if (e.connectors.getD i []).getD j false then s.connector_angle else none
        tile_chamfer := if (e.chamfers.getD i []).getD j false then s.tile_chamfer else false
        screw := if (e.screws.getD i []).getD j false then s.screw else false }) row) summits

/-- The state kept by `useGridState`. -/
structure EditorState where
  tiles : List (List Bool)
  summits : List (List SummitFeatures)
  opengridType : OpengridType
  screwSize : ScrewSize
deriving DecidableEq

/-- `rows` of the hook: `tiles.length`. -/
def editorRows (st : EditorState) : ℕ := st.tiles.length

/-- `cols` of the hook: `tiles[0]?.length ?? 0`. -/
def editorCols (st : EditorState) : ℕ := (st.tiles.headD []).length

/-- The memoized `eligibility` of the hook. -/
def eligibilityOf (st : EditorState) : Eligibility := computeAllEligibility st.tiles

/-- The initial hook state: `createEmptyGrid(initialRows, initialCols)`,
grid type `"full"`, default screw size. -/
def initialState (rows cols : ℕ) : EditorState :=
  { tiles := createEmptyGridTiles rows cols
    summits := createEmptyGridSummits rows cols
    opengridType := .full
    screwSize := DEFAULT_SCREW_SIZE }

/-- `setOpengridType`: also resets the screw size to the type's default. -/
def setOpengridType (t : OpengridType) (st : EditorState) : EditorState :=
  { st with
    opengridType := t
    screwSize := match t with
      | .lite => LITE_DEFAULT_SCREW_SIZE
      | .full => DEFAULT_SCREW_SIZE }

/-- `setScrewSize`. -/
def setScrewSize (s : ScrewSize) (st : EditorState) : EditorState :=
  { st with screwSize := s }

/-- `toggleTile(r, c)`: flip the slot, then prune the summit features
against the eligibility of the new tile grid. -/
def toggleTile (r c : ℕ) (st : EditorState) : EditorState :=
  let newTiles := List.modify (fun row => List.modify (fun b => !b) c row) r st.tiles
  let newElig := computeAllEligibility newTiles
  { st with tiles := newTiles, summits := pruneSummits st.summits newElig }

/-- `toggleConnector(i, j)`: no-op at an ineligible summit; otherwise clear
the stored angle, or store the direction computed from the current tiles. -/
def toggleConnector (i j : ℕ) (st : EditorState) : EditorState :=
  if !(((eligibilityOf st).connectors.getD i []).getD j false) then st
  else
    let flip := fun (s : SummitFeatures) =>
      if s.connector_angle.isSome then { s with connector_angle := none }
      else { s with connector_angle := some (computeConnectorDirection st.tiles (i : ℤ) (j : ℤ)) }
    { st with summits := List.modify (fun row => List.modify flip j row) i st.summits }

/-- `toggleChamfer(i, j)`. -/
def toggleChamfer (i j : ℕ) (st : EditorState) : EditorState :=
  if !(((eligibilityOf st).chamfers.getD i []).getD j false) then st
  else
    let flip := fun (s : SummitFeatures) => { s with tile_chamfer := !s.tile_chamfer }
    { st with summits := List.modify (fun row => List.modify flip j row) i st.summits }

/-- `toggleScrew(i, j)`. -/
def toggleScrew (i j : ℕ) (st : EditorState) : EditorState :=
  if !(((eligibilityOf st).screws.getD i []).getD j false) then st
  else
    let flip := fun (s : SummitFeatures) => { s with screw := !s.screw }
    { st with summits := List.modify (fun row => List.modify flip j row) i st.summits }

/-- `addRow`: append an all-tile row and a row of empty summits. -/
def addRow (st : EditorState) : EditorState :=
  { st with
    tiles := st.tiles ++ [List.replicate (editorCols st) true]
    summits := st.summits ++ [List.replicate (editorCols st + 1) emptySummit] }

/-- `removeRow`: rejected at one row; otherwise drop the last tile row and
the last summit row and prune against the new eligibility. -/
def removeRow (st : EditorState) : EditorState :=
  if editorRows st ≤ 1 then st
  else
    let newTiles := st.tiles.dropLast
    let newElig := computeAllEligibility newTiles
    { st with tiles := newTiles, summits := pruneSummits st.summits.dropLast newElig }

/-- `addColumn`: append a tile to every row and a summit to every summit
row. -/
def addColumn (st : EditorState) : EditorState :=
  { st with
    tiles := st.tiles.map (· ++ [true])
    summits := st.summits.map (· ++ [emptySummit]) }

/-- `removeColumn`: rejected at one column; otherwise drop the last entry
of every row and prune against the new eligibility. -/
def removeColumn (st : EditorState) : EditorState :=
  if editorCols st ≤ 1 then st
  else
    let newTiles := st.tiles.map List.dropLast
    { st with
      tiles := newTiles
      summits := pruneSummits (st.summits.map List.dropLast) (computeAllEligibility newTiles) }

/-- `enableAllConnectors`: the loop runs `i` over `0..rows`, `j` over
`0..cols` and activates every eligible summit whose angle is unset. -/
def enableAllConnectors (st : EditorState) : EditorState :=
  let upd := fun (s : SummitFeatures) (i j : ℕ) =>
    if i ≤ editorRows st ∧ j ≤ editorCols st ∧
        ((eligibilityOf st).connectors.getD i []).getD j false = true ∧
        s.connector_angle = none then
      { s with connector_angle := some (computeConnectorDirection st.tiles (i : ℤ) (j : ℤ)) }
    else s
  { st with summits := mapWithIdx (fun row i => mapWithIdx (fun s j => upd s i j) row) st.summits }

/-- `enableAllChamfers`. -/
def enableAllChamfers (st : EditorState) : EditorState :=
  let upd := fun (s : SummitFeatures) (i j : ℕ) =>
    if i ≤ editorRows st ∧ j ≤ editorCols st ∧
        ((eligibilityOf st).chamfers.getD i []).getD j false = true then
      { s with tile_chamfer := true }
    else s
  { st with summits := mapWithIdx (fun row i => mapWithIdx (fun s j => upd s i j) row) st.summits }

/-- `enableAllScrews`. -/
def enableAllScrews (st : EditorState) : EditorState :=
  let upd := fun (s : SummitFeatures) (i j : ℕ) =>
    if i ≤ editorRows st ∧ j ≤ editorCols st ∧
        ((eligibilityOf st).screws.getD i []).getD j false = true then
      { s with screw := true }
    else s
  { st with summits := mapWithIdx (fun row i => mapWithIdx (fun s j => upd s i j) row) st.summits }

/-- `enableCornerScrews`: every eligible summit's screw is set to whether
it is a corner position. -/
def enableCornerScrews (st : EditorState) : EditorState :=
  let corners := computeCornerScrewPositions (eligibilityOf st).screws
  let upd := fun (s : SummitFeatures) (i j : ℕ) =>
    if i ≤ editorRows st ∧ j ≤ editorCols st ∧
        ((eligibilityOf st).screws.getD i []).getD j false = true then
      { s with screw := (corners.getD i []).getD j false }
    else s
  { st with summits := mapWithIdx (fun row i => mapWithIdx (fun s j => upd s i j) row) st.summits }

/-- `clearAllConnectors`. -/
def clearAllConnectors (st : EditorState) : EditorState :=
  { st with summits := st.summits.map (·.map (fun s => { s with connector_angle := none })) }

/-- `clearAllChamfers`. -/
def clearAllChamfers (st : EditorState) : EditorState :=
  { st with summits := st.summits.map (·.map (fun s => { s with tile_chamfer := false })) }

/-- `clearAllScrews`. -/
def clearAllScrews (st : EditorState) : EditorState :=
  { st with summits := st.summits.map (·.map (fun s => { s with screw := false })) }

/-- `toGridPlan()`. -/
def toGridPlan (st : EditorState) : GridPlan :=
  { tiles := st.tiles, summits := st.summits, opengrid_type := st.opengridType
    screw_size := st.screwSize }

/-- The editor states producible by `useGridState`: an initial grid of
positive dimensions followed by any sequence of the exported operations
(tile toggles are clicks on rendered slots, hence in bounds). -/
inductive Reachable : EditorState → Prop
  | init (rows cols : ℕ) (hr : 1 ≤ rows) (hc : 1 ≤ cols) : Reachable (initialState rows cols)
  | step_setOpengridType (t : OpengridType) {st : EditorState} :
      Reachable st → Reachable (setOpengridType t st)
  | step_setScrewSize (s : ScrewSize) {st : EditorState} :
      Reachable st → Reachable (setScrewSize s st)
  | step_toggleTile (r c : ℕ) {st : EditorState} :
      Reachable st → r < editorRows st → c < editorCols st → Reachable (toggleTile r c st)
  | step_toggleConnector (i j : ℕ) {st : EditorState} :
      Reachable st → Reachable (toggleConnector i j st)
  | step_toggleChamfer (i j : ℕ) {st : EditorState} :
      Reachable st → Reachable (toggleChamfer i j st)
  | step_toggleScrew (i j : ℕ) {st : EditorState} :
      Reachable st → Reachable (toggleScrew i j st)
  | step_addRow {st : EditorState} : Reachable st → Reachable (addRow st)
  | step_removeRow {st : EditorState} : Reachable st → Reachable (removeRow st)
  | step_addColumn {st : EditorState} : Reachable st → Reachable (addColumn st)
  | step_removeColumn {st : EditorState} : Reachable st → Reachable (removeColumn st)
  | step_enableAllConnectors {st : EditorState} :
      Reachable st → Reachable (enableAllConnectors st)
  | step_enableAllChamfers {st : EditorState} :
      Reachable st → Reachable (enableAllChamfers st)
  | step_enableAllScrews {st : EditorState} :
      Reachable st → Reachable (enableAllScrews st)
  | step_enableCornerScrews {st : EditorState} :
      Reachable st → Reachable (enableCornerScrews st)
  | step_clearAllConnectors {st : EditorState} :
      Reachable st → Reachable (clearAllConnectors st)
  | step_clearAllChamfers {st : EditorState} :
      Reachable st → Reachable (clearAllChamfers st)
  | step_clearAllScrews {st : EditorState} :
      Reachable st → Reachable (clearAllScrews st)

/-! ### List toolkit -/

/-- A rectangular `R × C` list-of-rows grid. -/
def RectGrid (g : List (List α)) (R C : ℕ) : Prop :=
  g.length = R ∧ ∀ row ∈ g, row.length = C

/-- Entry of a summit-indexed boolean grid, out of range reading `false`. -/
def eligAt (g : List (List Bool)) (i j : ℕ) : Bool := (g.getD i []).getD j false

/-- Entry of a summit-features grid, out of range reading an empty summit. -/
def summitAt (s : List (List SummitFeatures)) (i j : ℕ) : SummitFeatures :=
  (s.getD i []).getD j emptySummit

/-- The per-summit record built by `pruneSummits`. -/
def pruneEntry (s : SummitFeatures) (e : Eligibility) (i j : ℕ) : SummitFeatures :=
  { connector_angle := if eligAt e.connectors i j then s.connector_angle else none
    tile_chamfer := if eligAt e.chamfers i j then s.tile_chamfer else false
    screw := if eligAt e.screws i j then s.screw else false }

/-- Eligibility-consistency of a summit grid: every active feature sits at a
summit whose governing eligibility entry is true. -/
def ConsistentSummits (s : List (List SummitFeatures)) (e : Eligibility) : Prop :=
  ∀ i j : ℕ,
    ((summitAt s i j).connector_angle.isSome = true → eligAt e.connectors i j = true) ∧
    ((summitAt s i j).tile_chamfer = true → eligAt e.chamfers i j = true) ∧
    ((summitAt s i j).screw = true → eligAt e.screws i j = true)

/-- Eligibility-consistency of an editor state. -/
def ConsistentState (st : EditorState) : Prop :=
  ConsistentSummits st.summits (computeAllEligibility st.tiles)

/-- The screw size that survives the 0.1 mm / one-byte wire format. -/
def roundScrew (s : ScrewSize) : ScrewSize :=
  { diameter := (toUint8 (jsRound (s.diameter * 10)) : ℚ) / 10
    head_diameter := (toUint8 (jsRound (s.head_diameter * 10)) : ℚ) / 10
    head_inset := (toUint8 (jsRound (s.head_inset * 10)) : ℚ) / 10 }

/-- The summit-activity bit `encode` writes for summit `(i,j)`. -/
def summitActiveBit (p : GridPlan) (i j : ℕ) : Bool :=
  (summitAt p.summits i j).connector_angle.isSome ||
    (summitAt p.summits i j).tile_chamfer || (summitAt p.summits i j).screw

/-- The summit record `decode` rebuilds from one activity bit, resolving the
feature kind by eligibility priority: connector, then chamfer, then screw. -/
def resolveSummit (tiles : List (List Bool)) (i j : ℕ) (bit : Bool) : SummitFeatures :=
  if bit then
    if eligAt (computeEligibleConnectorPositions tiles) i j then
      { connector_angle := some (computeConnectorDirection tiles (i : ℤ) (j : ℤ))
        tile_chamfer := false, screw := false }
    else if eligAt (computeEligibleChamferPositions tiles) i j then
      { connector_angle := none, tile_chamfer := true, screw := false }
    else if eligAt (computeEligibleScrewPositions tiles) i j then
      { connector_angle := none, tile_chamfer := false, screw := true }
    else emptySummit
  else emptySummit

def c1plan : GridPlan :=
  { tiles := [[true, true], [true, true]]
    summits :=
      [[{ connector_angle := none, tile_chamfer := true, screw := false },
        { connector_angle := some (-90), tile_chamfer := false, screw := false },
        emptySummit],
       [emptySummit,
        { connector_angle := none, tile_chamfer := false, screw := true },
        emptySummit],
       [emptySummit, emptySummit, emptySummit]]
    opengrid_type := .lite
    screw_size := { diameter := 4, head_diameter := 8, head_inset := 1 } }

theorem mapWithIdxFrom_getElem? (f : α → ℕ → β) (k : ℕ) (l : List α) (i : ℕ) :
    (mapWithIdxFrom f k l)[i]? = l[i]?.map (fun a => f a (k + i)) := by
  induction l generalizing k i with
  | nil => simp [mapWithIdxFrom]
  | cons a as ih =>
    cases i with
    | zero => simp [mapWithIdxFrom]
    | succ n =>
      simp only [mapWithIdxFrom, List.getElem?_cons_succ, ih]
      congr 1
      funext x
      congr 1
      omega

theorem mapWithIdx_getElem? (f : α → ℕ → β) (l : List α) (i : ℕ) :
    (mapWithIdx f l)[i]? = l[i]?.map (fun a => f a i) := by
  simpa using mapWithIdxFrom_getElem? f 0 l i

theorem length_mapWithIdx (f : α → ℕ → β) (l : List α) :
    (mapWithIdx f l).length = l.length := by
  suffices h : ∀ k, (mapWithIdxFrom f k l).length = l.length from h 0
  induction l with
  | nil => intro k; rfl
  | cons a as ih => intro k; simpa [mapWithIdxFrom] using ih (k + 1)

theorem mapWithIdx_getD (f : α → ℕ → β) (l : List α) (i : ℕ) (d : α) (e : β)
    (hd : f d i = e) : (mapWithIdx f l).getD i e = f (l.getD i d) i := by
  rcases lt_or_ge i l.length with h | h
  · rw [List.getD_eq_getElem?_getD, mapWithIdx_getElem?, List.getD_eq_getElem?_getD,
      List.getElem?_eq_getElem h]
    simp
  · rw [List.getD_eq_getElem?_getD, mapWithIdx_getElem?, List.getD_eq_getElem?_getD,
      List.getElem?_eq_none h]
    simpa using hd.symm

theorem rangeMap_getD (f : ℕ → β) (n i : ℕ) (d : β) :
    ((List.range n).map f).getD i d = if i < n then f i else d := by
  rcases lt_or_ge i n with h | h
  · rw [List.getD_eq_getElem?_getD, List.getElem?_map, List.getElem?_range h]
    simp [h]
  · rw [List.getD_eq_getElem?_getD, List.getElem?_eq_none (by simpa using h)]
    simp [Nat.not_lt.2 h]

/-! ### Bit packing: length, bounds, round trip -/

theorem byte8_lt (b0 b1 b2 b3 b4 b5 b6 b7 : Bool) : byte8 b0 b1 b2 b3 b4 b5 b6 b7 < 256 := by
  cases b0 <;> cases b1 <;> cases b2 <;> cases b3 <;> cases b4 <;> cases b5 <;> cases b6 <;>
    cases b7 <;> decide

theorem byteOfBits_lt (c : List Bool) : byteOfBits c < 256 :=
  byte8_lt _ _ _ _ _ _ _ _

theorem length_bitsToBytes : ∀ bits : List Bool,
    (bitsToBytes bits).length = (bits.length + 7) / 8
  | [] => rfl
  | b0 :: b1 :: b2 :: b3 :: b4 :: b5 :: b6 :: b7 :: rest => by
    have ih := length_bitsToBytes rest
    simp only [bitsToBytes, List.length_cons, ih]
    omega
  | [b0] => by simp [bitsToBytes]
  | [b0, b1] => by simp [bitsToBytes]
  | [b0, b1, b2] => by simp [bitsToBytes]
  | [b0, b1, b2, b3] => by simp [bitsToBytes]
  | [b0, b1, b2, b3, b4] => by simp [bitsToBytes]
  | [b0, b1, b2, b3, b4, b5] => by simp [bitsToBytes]
  | [b0, b1, b2, b3, b4, b5, b6] => by simp [bitsToBytes]

theorem bitsToBytes_lt : ∀ bits : List Bool, ∀ B ∈ bitsToBytes bits, B < 256
  | [] => by simp [bitsToBytes]
  | b0 :: b1 :: b2 :: b3 :: b4 :: b5 :: b6 :: b7 :: rest => by
    have ih := bitsToBytes_lt rest
    intro B hB
    rw [show bitsToBytes (b0 :: b1 :: b2 :: b3 :: b4 :: b5 :: b6 :: b7 :: rest) =
      byte8 b0 b1 b2 b3 b4 b5 b6 b7 :: bitsToBytes rest from rfl] at hB
    rcases List.mem_cons.1 hB with h | h
    · exact h ▸ byte8_lt b0 b1 b2 b3 b4 b5 b6 b7
    · exact ih B h
  | [b0] => by intro B hB; simp [bitsToBytes] at hB; exact hB ▸ byteOfBits_lt _
  | [b0, b1] => by intro B hB; simp [bitsToBytes] at hB; exact hB ▸ byteOfBits_lt _
  | [b0, b1, b2] => by intro B hB; simp [bitsToBytes] at hB; exact hB ▸ byteOfBits_lt _
  | [b0, b1, b2, b3] => by intro B hB; simp [bitsToBytes] at hB; exact hB ▸ byteOfBits_lt _
  | [b0, b1, b2, b3, b4] => by intro B hB; simp [bitsToBytes] at hB; exact hB ▸ byteOfBits_lt _
  | [b0, b1, b2, b3, b4, b5] => by
    intro B hB; simp [bitsToBytes] at hB; exact hB ▸ byteOfBits_lt _
  | [b0, b1, b2, b3, b4, b5, b6] => by
    intro B hB; simp [bitsToBytes] at hB; exact hB ▸ byteOfBits_lt _

theorem and_shift_bit (x k : ℕ) : (x &&& (1 <<< k) != 0) = decide (x / 2 ^ k % 2 = 1) := by
  rw [Nat.shiftLeft_eq, Nat.one_mul]
  rcases Nat.mod_two_eq_zero_or_one (x / 2 ^ k) with h | h
  · have ht : x.testBit k = false := by rw [Nat.testBit_to_div_mod]; simp [h]
    have hand : x &&& 2 ^ k = 0 := by
      apply Nat.eq_of_testBit_eq
      intro m
      simp only [Nat.testBit_and, Nat.testBit_two_pow, Nat.zero_testBit]
      rcases eq_or_ne k m with rfl | hk
      · simp [ht]
      · simp [hk]
    rw [hand]
    simp [h]
  · have ht : x.testBit k = true := by rw [Nat.testBit_to_div_mod]; simp [h]
    have hand : x &&& 2 ^ k = 2 ^ k := by
      apply Nat.eq_of_testBit_eq
      intro m
      simp only [Nat.testBit_and, Nat.testBit_two_pow]
      rcases eq_or_ne k m with rfl | hk
      · simp [ht]
      · simp [hk]
    have hpos : (2 : ℕ) ^ k ≠ 0 := by positivity
    rw [hand]
    simp [h, hpos]

theorem bitAt_eq_div_mod (data : List ℕ) (i : ℕ) :
    bitAt data i = decide ((data.getD (i / 8) 0) / 2 ^ (7 - i % 8) % 2 = 1) := by
  have e1 : i >>> 3 = i / 8 := by
    rw [Nat.shiftRight_eq_div_pow]
  have e2 : i &&& 7 = i % 8 := by
    rw [show (7 : ℕ) = 2 ^ 3 - 1 from by norm_num, Nat.and_pow_two_sub_one_eq_mod]
  rw [bitAt, e1, e2, and_shift_bit]

theorem map_bitAt_byte8 (b0 b1 b2 b3 b4 b5 b6 b7 : Bool) :
    (List.range 8).map (bitAt [byte8 b0 b1 b2 b3 b4 b5 b6 b7]) = [b0, b1, b2, b3, b4, b5, b6, b7] := by
  cases b0 <;> cases b1 <;> cases b2 <;> cases b3 <;> cases b4 <;> cases b5 <;> cases b6 <;>
    cases b7 <;> decide

theorem bytesToBits_cons_eight (B : ℕ) (Bs : List ℕ) (m : ℕ) :
    bytesToBits (B :: Bs) (8 + m) = (List.range 8).map (bitAt [B]) ++ bytesToBits Bs m := by
  have h1 : (List.range 8).map (bitAt (B :: Bs)) = (List.range 8).map (bitAt [B]) := by
    apply List.map_congr_left
    intro i hi
    have h8 : i < 8 := List.mem_range.1 hi
    rw [bitAt_eq_div_mod, bitAt_eq_div_mod, show i / 8 = 0 from by omega]
    rfl
  have h2 : (List.range m).map (bitAt (B :: Bs) ∘ fun x => 8 + x) = bytesToBits Bs m := by
    rw [bytesToBits]
    apply List.map_congr_left
    intro i _
    show bitAt (B :: Bs) (8 + i) = bitAt Bs i
    rw [bitAt_eq_div_mod, bitAt_eq_div_mod, show (8 + i) / 8 = i / 8 + 1 from by omega,
      show (8 + i) % 8 = i % 8 from by omega]
    rfl
  rw [bytesToBits, List.range_add, List.map_append, List.map_map, h1, h2]

theorem bytesToBits_bitsToBytes : ∀ bits : List Bool,
    bytesToBits (bitsToBytes bits) bits.length = bits
  | [] => rfl
  | b0 :: b1 :: b2 :: b3 :: b4 :: b5 :: b6 :: b7 :: rest => by
    have ih := bytesToBits_bitsToBytes rest
    rw [show bitsToBytes (b0 :: b1 :: b2 :: b3 :: b4 :: b5 :: b6 :: b7 :: rest) =
      byte8 b0 b1 b2 b3 b4 b5 b6 b7 :: bitsToBytes rest from rfl]
    rw [show (b0 :: b1 :: b2 :: b3 :: b4 :: b5 :: b6 :: b7 :: rest).length =
      8 + rest.length from by simp; omega]
    rw [bytesToBits_cons_eight, map_bitAt_byte8, ih]
    rfl
  | [b0] => by revert b0; decide
  | [b0, b1] => by revert b0 b1; decide
  | [b0, b1, b2] => by revert b0 b1 b2; decide
  | [b0, b1, b2, b3] => by revert b0 b1 b2 b3; decide
  | [b0, b1, b2, b3, b4] => by revert b0 b1 b2 b3 b4; decide
  | [b0, b1, b2, b3, b4, b5] => by revert b0 b1 b2 b3 b4 b5; decide
  | [b0, b1, b2, b3, b4, b5, b6] => by revert b0 b1 b2 b3 b4 b5 b6; decide

/-! ### Base64url: alphabet facts and round trip -/

theorem lor_shiftLeft_eq_add (a b k : ℕ) (hb : b < 2 ^ k) :
    (a <<< k) ||| b = a * 2 ^ k + b := by
  apply Nat.eq_of_testBit_eq
  intro i
  rw [Nat.testBit_or, Nat.testBit_shiftLeft, Nat.mul_comm a (2 ^ k),
    Nat.testBit_mul_pow_two_add a hb i]
  by_cases h : i < k
  · simp [h, Nat.not_le.2 h]
  · have hk : k ≤ i := Nat.not_lt.1 h
    have hb2 : b < 2 ^ i := lt_of_lt_of_le hb (Nat.pow_le_pow_right (by norm_num) hk)
    simp [h, hk, Nat.testBit_lt_two_pow hb2]

theorem and63_eq (x : ℕ) : x &&& 63 = x % 64 := by
  have h := Nat.and_pow_two_sub_one_eq_mod x 6
  norm_num at h
  exact h

theorem and255_eq (x : ℕ) : x &&& 255 = x % 256 := by
  have h := Nat.and_pow_two_sub_one_eq_mod x 8
  norm_num at h
  exact h

theorem and63_lt (x : ℕ) : x &&& 63 < 64 := by
  rw [and63_eq]
  omega

theorem lookupB64_b64char : ∀ i < 64, lookupB64 (b64char i) = i := by decide

theorem b64char_ne_dot (i : ℕ) : b64char i ≠ '.' := by
  rcases lt_or_ge i 64 with h | h
  · exact (by decide : ∀ j < 64, b64char j ≠ '.') i h
  · rw [b64char, List.getD_eq_default]
    · decide
    · exact le_trans (by decide) h

theorem b64char_ne_pad (i : ℕ) : b64char i ≠ '=' := by
  rcases lt_or_ge i 64 with h | h
  · exact (by decide : ∀ j < 64, b64char j ≠ '=') i h
  · rw [b64char, List.getD_eq_default]
    · decide
    · exact le_trans (by decide) h

theorem b64urlDecode_cons4 (c0 c1 c2 c3 : Char) (s : List Char) :
    b64urlDecode (c0 :: c1 :: c2 :: c3 :: s) = b64Group c0 c1 c2 c3 ++ b64urlDecode s := by
  rw [b64urlDecode, b64urlDecode,
    show (c0 :: c1 :: c2 :: c3 :: s).length = s.length + 4 from by simp,
    show (4 - (s.length + 4) % 4) % 4 = (4 - s.length % 4) % 4 from by omega]
  rfl

theorem b64dec_last1 (b0 : ℕ) (h0 : b0 < 256) :
    (((b0 >>> 2) &&& 63) <<< 2) ||| (((b0 <<< 4) &&& 63) >>> 4) = b0 := by
  have hb : ((b0 <<< 4) &&& 63) >>> 4 < 2 ^ 2 := by
    rw [Nat.shiftRight_eq_div_pow, and63_eq]
    omega
  rw [lor_shiftLeft_eq_add _ _ 2 hb]
  simp only [Nat.shiftLeft_eq, Nat.shiftRight_eq_div_pow, and63_eq]
  norm_num
  omega

theorem b64dec_pair0 (b0 b1 : ℕ) (h0 : b0 < 256) (h1 : b1 < 256) :
    (((b0 >>> 2) &&& 63) <<< 2) ||| ((((b0 <<< 4) ||| (b1 >>> 4)) &&& 63) >>> 4) = b0 := by
  have e1 : (b0 <<< 4) ||| (b1 >>> 4) = b0 * 2 ^ 4 + b1 >>> 4 := by
    apply lor_shiftLeft_eq_add
    rw [Nat.shiftRight_eq_div_pow]
    norm_num
    omega
  have hb : (((b0 * 2 ^ 4 + b1 >>> 4)) &&& 63) >>> 4 < 2 ^ 2 := by
    rw [Nat.shiftRight_eq_div_pow, and63_eq]
    omega
  rw [e1, lor_shiftLeft_eq_add _ _ 2 hb]
  simp only [Nat.shiftLeft_eq, Nat.shiftRight_eq_div_pow, and63_eq]
  norm_num
  omega

theorem b64dec_last2 (b0 b1 : ℕ) (h0 : b0 < 256) (h1 : b1 < 256) :
    (((((b0 <<< 4) ||| (b1 >>> 4)) &&& 63) <<< 4) ||| (((b1 <<< 2) &&& 63) >>> 2)) &&& 255 = b1 := by
  have e1 : (b0 <<< 4) ||| (b1 >>> 4) = b0 * 2 ^ 4 + b1 >>> 4 := by
    apply lor_shiftLeft_eq_add
    rw [Nat.shiftRight_eq_div_pow]
    norm_num
    omega
  have hb : ((b1 <<< 2) &&& 63) >>> 2 < 2 ^ 4 := by
    rw [Nat.shiftRight_eq_div_pow, and63_eq]
    omega
  rw [e1, lor_shiftLeft_eq_add _ _ 4 hb]
  simp only [Nat.shiftLeft_eq, Nat.shiftRight_eq_div_pow, and63_eq, and255_eq]
  norm_num
  omega

theorem b64dec_full1 (b0 b1 b2 : ℕ) (h0 : b0 < 256) (h1 : b1 < 256) (h2 : b2 < 256) :
    (((((b0 <<< 4) ||| (b1 >>> 4)) &&& 63) <<< 4) |||
      ((((b1 <<< 2) ||| (b2 >>> 6)) &&& 63) >>> 2)) &&& 255 = b1 := by
  have e1 : (b0 <<< 4) ||| (b1 >>> 4) = b0 * 2 ^ 4 + b1 >>> 4 := by
    apply lor_shiftLeft_eq_add
    rw [Nat.shiftRight_eq_div_pow]
    norm_num
    omega
  have e2 : (b1 <<< 2) ||| (b2 >>> 6) = b1 * 2 ^ 2 + b2 >>> 6 := by
    apply lor_shiftLeft_eq_add
    rw [Nat.shiftRight_eq_div_pow]
    norm_num
    omega
  have hb : (((b1 * 2 ^ 2 + b2 >>> 6)) &&& 63) >>> 2 < 2 ^ 4 := by
    rw [Nat.shiftRight_eq_div_pow, and63_eq]
    omega
  rw [e1, e2, lor_shiftLeft_eq_add _ _ 4 hb]
  simp only [Nat.shiftLeft_eq, Nat.shiftRight_eq_div_pow, and63_eq, and255_eq]
  norm_num
  omega

theorem b64dec_full2 (b1 b2 : ℕ) (h1 : b1 < 256) (h2 : b2 < 256) :
    (((((b1 <<< 2) ||| (b2 >>> 6)) &&& 63) <<< 6) ||| (b2 &&& 63)) &&& 255 = b2 := by
  have e1 : (b1 <<< 2) ||| (b2 >>> 6) = b1 * 2 ^ 2 + b2 >>> 6 := by
    apply lor_shiftLeft_eq_add
    rw [Nat.shiftRight_eq_div_pow]
    norm_num
    omega
  have hb : b2 &&& 63 < 2 ^ 6 := by
    rw [and63_eq]
    omega
  rw [e1, lor_shiftLeft_eq_add _ _ 6 hb]
  simp only [Nat.shiftLeft_eq, Nat.shiftRight_eq_div_pow, and63_eq, and255_eq]
  norm_num
  omega

theorem b64urlDecodeLoop_four (c0 c1 c2 c3 : Char) :
    b64urlDecodeLoop [c0, c1, c2, c3] = b64Group c0 c1 c2 c3 := by
  rw [show b64urlDecodeLoop [c0, c1, c2, c3] =
    b64Group c0 c1 c2 c3 ++ b64urlDecodeLoop [] from rfl,
    show b64urlDecodeLoop [] = [] from rfl, List.append_nil]

theorem b64Group_pad2 (c0 c1 : Char) :
    b64Group c0 c1 '=' '=' = [(lookupB64 c0 <<< 2) ||| (lookupB64 c1 >>> 4)] := by
  rw [b64Group]
  simp

theorem b64Group_pad1 (c0 c1 c2 : Char) (h : c2 ≠ '=') :
    b64Group c0 c1 c2 '=' = [(lookupB64 c0 <<< 2) ||| (lookupB64 c1 >>> 4),
      ((lookupB64 c1 <<< 4) ||| (lookupB64 c2 >>> 2)) &&& 255] := by
  rw [b64Group]
  simp [h]

theorem b64Group_full (c0 c1 c2 c3 : Char) (h2 : c2 ≠ '=') (h3 : c3 ≠ '=') :
    b64Group c0 c1 c2 c3 = [(lookupB64 c0 <<< 2) ||| (lookupB64 c1 >>> 4),
      ((lookupB64 c1 <<< 4) ||| (lookupB64 c2 >>> 2)) &&& 255,
      ((lookupB64 c2 <<< 6) ||| lookupB64 c3) &&& 255] := by
  rw [b64Group]
  simp [h2, h3]

theorem b64_roundtrip : ∀ data : List ℕ, (∀ b ∈ data, b < 256) →
    b64urlDecode (b64urlEncode data) = data
  | [], _ => rfl
  | [b0], h => by
    have h0 : b0 < 256 := h b0 (by simp)
    rw [show b64urlEncode [b0] =
      [b64char ((b0 >>> 2) &&& 63), b64char ((b0 <<< 4) &&& 63)] from rfl]
    rw [show b64urlDecode [b64char ((b0 >>> 2) &&& 63), b64char ((b0 <<< 4) &&& 63)] =
      b64urlDecodeLoop [b64char ((b0 >>> 2) &&& 63), b64char ((b0 <<< 4) &&& 63), '=', '=']
      from rfl]
    rw [b64urlDecodeLoop_four, b64Group_pad2]
    rw [lookupB64_b64char _ (and63_lt _), lookupB64_b64char _ (and63_lt _)]
    rw [b64dec_last1 b0 h0]
  | [b0, b1], h => by
    have h0 : b0 < 256 := h b0 (by simp)
    have h1 : b1 < 256 := h b1 (by simp)
    rw [show b64urlEncode [b0, b1] =
      [b64char ((b0 >>> 2) &&& 63), b64char (((b0 <<< 4) ||| (b1 >>> 4)) &&& 63),
        b64char ((b1 <<< 2) &&& 63)] from rfl]
    rw [show b64urlDecode [b64char ((b0 >>> 2) &&& 63),
        b64char (((b0 <<< 4) ||| (b1 >>> 4)) &&& 63), b64char ((b1 <<< 2) &&& 63)] =
      b64urlDecodeLoop [b64char ((b0 >>> 2) &&& 63),
        b64char (((b0 <<< 4) ||| (b1 >>> 4)) &&& 63), b64char ((b1 <<< 2) &&& 63), '=']
      from rfl]
    rw [b64urlDecodeLoop_four, b64Group_pad1 _ _ _ (b64char_ne_pad _)]
    rw [lookupB64_b64char _ (and63_lt _), lookupB64_b64char _ (and63_lt _),
      lookupB64_b64char _ (and63_lt _)]
    rw [b64dec_pair0 b0 b1 h0 h1, b64dec_last2 b0 b1 h0 h1]
  | b0 :: b1 :: b2 :: rest, h => by
    have h0 : b0 < 256 := h b0 (by simp)
    have h1 : b1 < 256 := h b1 (by simp)
    have h2 : b2 < 256 := h b2 (by simp)
    have ih := b64_roundtrip rest (fun b hb => h b (by simp [hb]))
    rw [show b64urlEncode (b0 :: b1 :: b2 :: rest) =
      b64char ((b0 >>> 2) &&& 63) :: b64char (((b0 <<< 4) ||| (b1 >>> 4)) &&& 63) ::
        b64char (((b1 <<< 2) ||| (b2 >>> 6)) &&& 63) :: b64char (b2 &&& 63) ::
        b64urlEncode rest from rfl]
    rw [b64urlDecode_cons4, b64Group_full _ _ _ _ (b64char_ne_pad _) (b64char_ne_pad _)]
    rw [lookupB64_b64char _ (and63_lt _), lookupB64_b64char _ (and63_lt _),
      lookupB64_b64char _ (and63_lt _), lookupB64_b64char _ (and63_lt _)]
    rw [b64dec_pair0 b0 b1 h0 h1, b64dec_full1 b0 b1 b2 h0 h1 h2, b64dec_full2 b1 b2 h1 h2, ih]
    rfl

theorem mem_b64urlEncode_ne_dot : ∀ data : List ℕ, ∀ c ∈ b64urlEncode data, c ≠ '.'
  | [], c, hc => by simp [b64urlEncode] at hc
  | [b0], c, hc => by
    rw [show b64urlEncode [b0] =
      [b64char ((b0 >>> 2) &&& 63), b64char ((b0 <<< 4) &&& 63)] from rfl] at hc
    simp only [List.mem_cons, List.not_mem_nil, or_false] at hc
    rcases hc with rfl | rfl
    · exact b64char_ne_dot _
    · exact b64char_ne_dot _
  | [b0, b1], c, hc => by
    rw [show b64urlEncode [b0, b1] =
      [b64char ((b0 >>> 2) &&& 63), b64char (((b0 <<< 4) ||| (b1 >>> 4)) &&& 63),
        b64char ((b1 <<< 2) &&& 63)] from rfl] at hc
    simp only [List.mem_cons, List.not_mem_nil, or_false] at hc
    rcases hc with rfl | rfl | rfl
    · exact b64char_ne_dot _
    · exact b64char_ne_dot _
    · exact b64char_ne_dot _
  | b0 :: b1 :: b2 :: rest, c, hc => by
    rw [show b64urlEncode (b0 :: b1 :: b2 :: rest) =
      b64char ((b0 >>> 2) &&& 63) :: b64char (((b0 <<< 4) ||| (b1 >>> 4)) &&& 63) ::
        b64char (((b1 <<< 2) ||| (b2 >>> 6)) &&& 63) :: b64char (b2 &&& 63) ::
        b64urlEncode rest from rfl] at hc
    simp only [List.mem_cons] at hc
    rcases hc with rfl | rfl | rfl | rfl | h
    · exact b64char_ne_dot _
    · exact b64char_ne_dot _
    · exact b64char_ne_dot _
    · exact b64char_ne_dot _
    · exact mem_b64urlEncode_ne_dot rest c h

/-! ### Decimal printing and parsing: lemmas -/

theorem natDigitsAux_eq : ∀ fuel n : ℕ, n ≤ fuel →
    natDigitsAux fuel n = (Nat.digits 10 n).map digitChar
  | 0, n, hn => by
    have : n = 0 := Nat.le_zero.1 hn
    subst this
    simp [natDigitsAux]
  | fuel + 1, 0, _ => by simp [natDigitsAux]
  | fuel + 1, n + 1, hn => by
    have hlt : (n + 1) / 10 ≤ fuel := by
      have := Nat.div_lt_self (Nat.succ_pos n) (by norm_num : 1 < 10)
      omega
    rw [show natDigitsAux (fuel + 1) (n + 1) =
      digitChar ((n + 1) % 10) :: natDigitsAux fuel ((n + 1) / 10) from rfl]
    rw [natDigitsAux_eq fuel ((n + 1) / 10) hlt]
    rw [Nat.digits_def' (by norm_num : 1 < 10) (Nat.succ_pos n)]
    simp

theorem mem_natToChars (n : ℕ) : ∀ c ∈ natToChars n, ∃ d, d < 10 ∧ c = digitChar d := by
  intro c hc
  rw [natToChars] at hc
  split at hc
  · simp only [List.mem_singleton] at hc
    exact ⟨0, by norm_num, by rw [hc]; rfl⟩
  · rename_i hn
    rw [natDigitsAux_eq n n le_rfl, List.mem_reverse] at hc
    rcases List.mem_map.1 hc with ⟨d, hd, rfl⟩
    exact ⟨d, Nat.digits_lt_base (by norm_num) hd, rfl⟩

theorem digitChar_facts : ∀ d < 10, Char.isDigit (digitChar d) = true ∧ digitChar d ≠ '.' ∧
    digitChar d ≠ '-' ∧ digitChar d ≠ '+' ∧ jsIsSpace (digitChar d) = false ∧
    digitVal (digitChar d) = d := by decide

theorem natToChars_ne_dot (n : ℕ) : ∀ c ∈ natToChars n, c ≠ '.' := by
  intro c hc
  rcases mem_natToChars n c hc with ⟨d, hd, rfl⟩
  exact (digitChar_facts d hd).2.1

theorem natToChars_ne_nil (n : ℕ) : natToChars n ≠ [] := by
  rw [natToChars]
  split
  · simp
  · rename_i hn
    intro h
    rw [List.reverse_eq_nil_iff] at h
    have h2 := natDigitsAux_eq n n le_rfl
    rw [h] at h2
    have := (@Nat.digits_ne_nil_iff_ne_zero 10 n).2 hn
    simp only [List.nil_eq, List.map_eq_nil_iff] at h2
    exact this h2

theorem takeWhile_eq_self_of_all {p : α → Bool} :
    ∀ l : List α, (∀ c ∈ l, p c = true) → l.takeWhile p = l
  | [], _ => rfl
  | a :: as, h => by
    rw [List.takeWhile_cons, h a (by simp),
      takeWhile_eq_self_of_all as (fun c hc => h c (by simp [hc]))]
    simp

theorem foldl_digits_eq : ∀ (l : List ℕ) (b : ℕ), (∀ d ∈ l, d < 10) →
    List.foldl (fun a c => 10 * a + digitVal (digitChar c)) b l =
      List.foldl (fun a d => 10 * a + d) b l
  | [], _, _ => rfl
  | d :: ds, b, h => by
    have hd : d < 10 := h d (by simp)
    rw [List.foldl_cons, List.foldl_cons, (digitChar_facts d hd).2.2.2.2.2,
      foldl_digits_eq ds _ (fun x hx => h x (by simp [hx]))]

theorem foldr_eq_ofDigits : ∀ l : List ℕ,
    List.foldr (fun d a => 10 * a + d) 0 l = Nat.ofDigits 10 l
  | [] => by simp [Nat.ofDigits_nil]
  | d :: ds => by
    rw [List.foldr_cons, foldr_eq_ofDigits ds, Nat.ofDigits_cons]
    ring

theorem parseDigits_natToChars (n : ℕ) : parseDigits (natToChars n) = n := by
  rw [natToChars]
  split
  · rename_i hn
    subst hn
    decide
  · rw [natDigitsAux_eq n n le_rfl, parseDigits, ← List.map_reverse, List.foldl_map,
      foldl_digits_eq _ _ (fun d hd => Nat.digits_lt_base (by norm_num) (List.mem_reverse.1 hd)),
      List.foldl_reverse]
    have h := foldr_eq_ofDigits (Nat.digits 10 n)
    simp only [show (fun (x : ℕ) (y : ℕ) => 10 * y + x) = fun d a => 10 * a + d from rfl] at h ⊢
    rw [h, Nat.ofDigits_digits]

theorem parseIntTS_natToChars (n : ℕ) : parseIntTS (natToChars n) = some (n : ℤ) := by
  obtain ⟨c, cs, hl⟩ : ∃ c cs, natToChars n = c :: cs := by
    rcases h : natToChars n with _ | ⟨c, cs⟩
    · exact absurd h (natToChars_ne_nil n)
    · exact ⟨c, cs, rfl⟩
  obtain ⟨d, hd, hc⟩ := mem_natToChars n c (by rw [hl]; simp)
  have hfacts := digitChar_facts d hd
  have hdrop : (natToChars n).dropWhile jsIsSpace = natToChars n := by
    rw [hl, List.dropWhile_cons, hc, hfacts.2.2.2.2.1]
    simp
  have htake : (natToChars n).takeWhile Char.isDigit = natToChars n :=
    takeWhile_eq_self_of_all _ (fun x hx => by
      rcases mem_natToChars n x hx with ⟨e, he, rfl⟩
      exact (digitChar_facts e he).1)
  have hempty : (natToChars n).isEmpty = false := by
    rcases hE : (natToChars n).isEmpty with _ | _
    · rfl
    · exact absurd (List.isEmpty_iff.1 hE) (natToChars_ne_nil n)
  have hpld : parseLeadingDigits (natToChars n) = some n := by
    rw [parseLeadingDigits]
    simp only [htake, hempty]
    rw [if_neg (by simp), parseDigits_natToChars]
  rw [parseIntTS]
  simp only [hdrop]
  rw [hl]
  simp only [List.headD_cons]
  rw [hc, if_neg hfacts.2.2.1, if_neg hfacts.2.2.2.1, ← hc, ← hl, hpld]
  rfl

/-! ### Rectangular grids, flattening, reconstruction -/

theorem row_ext (d : α) : ∀ (row : List α) (C : ℕ), row.length = C →
    (List.range C).map (fun c => row.getD c d) = row
  | [], C, h => by subst h; rfl
  | a :: as, C, h => by
    subst h
    rw [List.length_cons, List.range_succ_eq_map, List.map_cons, List.map_map]
    congr 1
    rw [show ((fun c => (a :: as).getD c d) ∘ Nat.succ) = fun c => as.getD c d from rfl]
    exact row_ext d as as.length rfl

theorem grid_ext (d : α) : ∀ (g : List (List α)) (R C : ℕ), g.length = R →
    (∀ row ∈ g, row.length = C) →
    (List.range R).map (fun r => (List.range C).map fun c => (g.getD r []).getD c d) = g
  | [], R, C, hR, _ => by subst hR; rfl
  | row :: rest, R, C, hR, hrows => by
    subst hR
    rw [List.length_cons, List.range_succ_eq_map, List.map_cons, List.map_map]
    congr 1
    · exact row_ext d row C (hrows row (by simp))
    · rw [show ((fun r => (List.range C).map fun c => ((row :: rest).getD r []).getD c d) ∘
        Nat.succ) = fun r => (List.range C).map fun c => (rest.getD r []).getD c d from rfl]
      exact grid_ext d rest rest.length C rfl (fun rw hrw => hrows rw (by simp [hrw]))

theorem flatten_getD (d : α) : ∀ (L : List (List α)) (C : ℕ), (∀ row ∈ L, row.length = C) →
    ∀ r c : ℕ, r < L.length → c < C → L.flatten.getD (r * C + c) d = (L.getD r []).getD c d
  | [], _, _, r, c, hr, _ => by simp at hr
  | row :: rest, C, hC, 0, c, hr, hc => by
    have hrow : row.length = C := hC row (by simp)
    rw [List.flatten_cons, Nat.zero_mul, Nat.zero_add, List.getD_eq_getElem?_getD,
      List.getElem?_append_left (by omega), ← List.getD_eq_getElem?_getD]
    rfl
  | row :: rest, C, hC, r + 1, c, hr, hc => by
    have hrow : row.length = C := hC row (by simp)
    rw [List.flatten_cons, List.getD_eq_getElem?_getD,
      show (r + 1) * C + c = row.length + (r * C + c) from by rw [hrow]; ring,
      List.getElem?_append_right (by omega), Nat.add_sub_cancel_left,
      ← List.getD_eq_getElem?_getD,
      flatten_getD d rest C (fun x hx => hC x (by simp [hx])) r c (by simpa using hr) hc]
    rfl

/-! ### Eligibility grids: entry formulas and mutual exclusivity -/

theorem connectorEntry (tiles : List (List Bool)) (i j : ℕ) :
    eligAt (computeEligibleConnectorPositions tiles) i j =
      if i ≤ tiles.length ∧ j ≤ (tiles.headD []).length then
        (isTile tiles ((i : ℤ) - 1) ((j : ℤ) - 1) == isTile tiles ((i : ℤ) - 1) (j : ℤ) &&
            isTile tiles (i : ℤ) ((j : ℤ) - 1) == isTile tiles (i : ℤ) (j : ℤ) &&
            isTile tiles ((i : ℤ) - 1) ((j : ℤ) - 1) != isTile tiles (i : ℤ) ((j : ℤ) - 1)) ||
          (isTile tiles ((i : ℤ) - 1) ((j : ℤ) - 1) == isTile tiles (i : ℤ) ((j : ℤ) - 1) &&
            isTile tiles ((i : ℤ) - 1) (j : ℤ) == isTile tiles (i : ℤ) (j : ℤ) &&
            isTile tiles ((i : ℤ) - 1) ((j : ℤ) - 1) != isTile tiles ((i : ℤ) - 1) (j : ℤ))
      else false := by
  rw [eligAt]
  simp only [computeEligibleConnectorPositions]
  rw [rangeMap_getD]
  rcases Nat.lt_or_ge i (tiles.length + 1) with hi | hi
  · rw [if_pos hi]
    rw [rangeMap_getD]
    rcases Nat.lt_or_ge j ((tiles.headD []).length + 1) with hj | hj
    · rw [if_pos hj, if_pos (by omega)]
    · rw [if_neg (by omega), if_neg (by omega)]
  · rw [if_neg (by omega), if_neg (by omega)]
    rfl

theorem chamferEntry (tiles : List (List Bool)) (i j : ℕ) :
    eligAt (computeEligibleChamferPositions tiles) i j =
      if i ≤ tiles.length ∧ j ≤ (tiles.headD []).length then
        ([isTile tiles ((i : ℤ) - 1) ((j : ℤ) - 1), isTile tiles ((i : ℤ) - 1) (j : ℤ),
            isTile tiles (i : ℤ) ((j : ℤ) - 1), isTile tiles (i : ℤ) (j : ℤ)].filter
          id).length == 1
      else false := by
  rw [eligAt]
  simp only [computeEligibleChamferPositions]
  rw [rangeMap_getD]
  rcases Nat.lt_or_ge i (tiles.length + 1) with hi | hi
  · rw [if_pos hi]
    rw [rangeMap_getD]
    rcases Nat.lt_or_ge j ((tiles.headD []).length + 1) with hj | hj
    · rw [if_pos hj, if_pos (by omega)]
    · rw [if_neg (by omega), if_neg (by omega)]
  · rw [if_neg (by omega), if_neg (by omega)]
    rfl

theorem screwEntry (tiles : List (List Bool)) (i j : ℕ) :
    eligAt (computeEligibleScrewPositions tiles) i j =
      if i ≤ tiles.length ∧ j ≤ (tiles.headD []).length then
        isTile tiles ((i : ℤ) - 1) ((j : ℤ) - 1) && isTile tiles ((i : ℤ) - 1) (j : ℤ) &&
          isTile tiles (i : ℤ) ((j : ℤ) - 1) && isTile tiles (i : ℤ) (j : ℤ)
      else false := by
  rw [eligAt]
  simp only [computeEligibleScrewPositions]
  rw [rangeMap_getD]
  rcases Nat.lt_or_ge i (tiles.length + 1) with hi | hi
  · rw [if_pos hi]
    rw [rangeMap_getD]
    rcases Nat.lt_or_ge j ((tiles.headD []).length + 1) with hj | hj
    · rw [if_pos hj, if_pos (by omega)]
    · rw [if_neg (by omega), if_neg (by omega)]
  · rw [if_neg (by omega), if_neg (by omega)]
    rfl

theorem patterns_exclusive (a b c d : Bool) :
    ¬(((a == b && c == d && a != c) || (a == c && b == d && a != b)) = true ∧
        (([a, b, c, d].filter id).length == 1) = true) ∧
      ¬(((a == b && c == d && a != c) || (a == c && b == d && a != b)) = true ∧
        (a && b && c && d) = true) ∧
      ¬((([a, b, c, d].filter id).length == 1) = true ∧ (a && b && c && d) = true) := by
  cases a <;> cases b <;> cases c <;> cases d <;> decide

theorem elig_exclusive (tiles : List (List Bool)) (i j : ℕ) :
    ¬(eligAt (computeEligibleConnectorPositions tiles) i j = true ∧
        eligAt (computeEligibleChamferPositions tiles) i j = true) ∧
      ¬(eligAt (computeEligibleConnectorPositions tiles) i j = true ∧
        eligAt (computeEligibleScrewPositions tiles) i j = true) ∧
      ¬(eligAt (computeEligibleChamferPositions tiles) i j = true ∧
        eligAt (computeEligibleScrewPositions tiles) i j = true) := by
  rw [connectorEntry, chamferEntry, screwEntry]
  by_cases h : i ≤ tiles.length ∧ j ≤ (tiles.headD []).length
  · rw [if_pos h, if_pos h, if_pos h]
    exact patterns_exclusive _ _ _ _
  · rw [if_neg h, if_neg h, if_neg h]
    simp

/-! ### Pruning: entry formula, consistency, idempotence -/

theorem mapWithIdxFrom_congr {f g : α → ℕ → β} (h : ∀ a i, f a i = g a i) :
    ∀ (k : ℕ) (l : List α), mapWithIdxFrom f k l = mapWithIdxFrom g k l
  | _, [] => rfl
  | k, a :: as => by
    rw [mapWithIdxFrom, mapWithIdxFrom, h a k, mapWithIdxFrom_congr h (k + 1) as]

theorem mapWithIdxFrom_comp (f g : α → ℕ → α) :
    ∀ (k : ℕ) (l : List α), mapWithIdxFrom f k (mapWithIdxFrom g k l) =
      mapWithIdxFrom (fun a i => f (g a i) i) k l
  | _, [] => rfl
  | k, a :: as => by
    rw [mapWithIdxFrom, mapWithIdxFrom, mapWithIdxFrom, mapWithIdxFrom_comp f g (k + 1) as]

theorem pruneEntry_empty (e : Eligibility) (i j : ℕ) : pruneEntry emptySummit e i j = emptySummit := by
  rw [pruneEntry, emptySummit]
  simp

theorem pruneSummits_getD (s : List (List SummitFeatures)) (e : Eligibility) (i j : ℕ) :
    summitAt (pruneSummits s e) i j = pruneEntry (summitAt s i j) e i j := by
  rw [summitAt, summitAt, pruneSummits]
  rw [mapWithIdx_getD _ s i [] [] rfl]
  rw [mapWithIdx_getD _ _ j emptySummit emptySummit (pruneEntry_empty e i j)]
  rfl

theorem pruneSummits_consistent (s : List (List SummitFeatures)) (e : Eligibility) :
    ConsistentSummits (pruneSummits s e) e := by
  intro i j
  rw [pruneSummits_getD, pruneEntry]
  refine ⟨?_, ?_, ?_⟩
  · rcases h : eligAt e.connectors i j with _ | _ <;> simp [h]
  · rcases h : eligAt e.chamfers i j with _ | _ <;> simp [h]
  · rcases h : eligAt e.screws i j with _ | _ <;> simp [h]

theorem ConsistentSummits_of_bounded (s : List (List SummitFeatures)) (e : Eligibility)
    (h : ∀ i < s.length, ∀ j < (s.getD i []).length,
      ((summitAt s i j).connector_angle.isSome = true → eligAt e.connectors i j = true) ∧
      ((summitAt s i j).tile_chamfer = true → eligAt e.chamfers i j = true) ∧
      ((summitAt s i j).screw = true → eligAt e.screws i j = true)) :
    ConsistentSummits s e := by
  intro i j
  rcases Nat.lt_or_ge i s.length with hi | hi
  · rcases Nat.lt_or_ge j (s.getD i []).length with hj | hj
    · exact h i hi j hj
    · rw [summitAt, List.getD_eq_default _ _ hj]
      refine ⟨?_, ?_, ?_⟩ <;> intro hx <;> simp [emptySummit] at hx
  · rw [summitAt, List.getD_eq_default _ _ hi]
    refine ⟨?_, ?_, ?_⟩ <;> intro hx <;> simp [emptySummit] at hx

theorem pruneEntry_idem (s : SummitFeatures) (e : Eligibility) (i j : ℕ) :
    pruneEntry (pruneEntry s e i j) e i j = pruneEntry s e i j := by
  simp only [pruneEntry]
  rcases h1 : eligAt e.connectors i j with _ | _ <;>
    rcases h2 : eligAt e.chamfers i j with _ | _ <;>
    rcases h3 : eligAt e.screws i j with _ | _ <;> simp [h1, h2, h3]

theorem pruneSummits_idem (s : List (List SummitFeatures)) (e : Eligibility) :
    pruneSummits (pruneSummits s e) e = pruneSummits s e := by
  simp only [pruneSummits, mapWithIdx]
  rw [mapWithIdxFrom_comp]
  apply mapWithIdxFrom_congr
  intro row i
  rw [mapWithIdxFrom_comp]
  apply mapWithIdxFrom_congr
  intro a j
  exact pruneEntry_idem a _ i j

/-! ### The wire string splits back into the seven fields -/

theorem encodeParts_eq (p : GridPlan) : encodeParts p =
    [['0'],
      [match p.opengrid_type with | .full => 'f' | .lite => 'l'],
      natToChars p.tiles.length,
      natToChars (p.tiles.headD []).length,
      b64urlEncode [toUint8 (jsRound (p.screw_size.diameter * 10)),
        toUint8 (jsRound (p.screw_size.head_diameter * 10)),
        toUint8 (jsRound (p.screw_size.head_inset * 10))],
      b64urlEncode (bitsToBytes ((List.range p.tiles.length).flatMap fun (r : ℕ) =>
        (List.range (p.tiles.headD []).length).map fun (c : ℕ) =>
          (p.tiles.getD r []).getD c false)),
      b64urlEncode (bitsToBytes ((List.range (p.tiles.length + 1)).flatMap fun (i : ℕ) =>
        (List.range ((p.tiles.headD []).length + 1)).map fun (j : ℕ) =>
          let s := (p.summits.getD i []).getD j emptySummit
          s.connector_angle.isSome || s.tile_chamfer || s.screw))] := rfl

theorem encodeParts_ne_dot (p : GridPlan) : ∀ l ∈ encodeParts p, '.' ∉ l := by
  intro l hl
  rw [encodeParts_eq] at hl
  simp only [List.mem_cons, List.not_mem_nil, or_false] at hl
  rcases hl with rfl | rfl | rfl | rfl | rfl | rfl | rfl
  · decide
  · rcases p.opengrid_type with _ | _ <;> decide
  · intro h
    exact natToChars_ne_dot _ _ h rfl
  · intro h
    exact natToChars_ne_dot _ _ h rfl
  · intro h
    exact mem_b64urlEncode_ne_dot _ _ h rfl
  · intro h
    exact mem_b64urlEncode_ne_dot _ _ h rfl
  · intro h
    exact mem_b64urlEncode_ne_dot _ _ h rfl

theorem encode_splitOn (p : GridPlan) : (encode p).splitOn '.' = encodeParts p := by
  rw [encode]
  exact List.splitOn_intercalate _ '.' (encodeParts_ne_dot p)
    (by rw [encodeParts_eq]; exact List.cons_ne_nil _ _)

/-! ### Row-major bit lists over rectangular index ranges -/

theorem length_flatMap_rangeMap (g : ℕ → ℕ → α) (R C : ℕ) :
    ((List.range R).flatMap fun r => (List.range C).map (g r)).length = R * C := by
  rw [List.length_flatMap]
  rw [show List.map (List.length ∘ fun r => (List.range C).map (g r)) (List.range R) =
    List.replicate R C from List.eq_replicate_iff.2 ⟨by simp, by simp⟩]
  simp [List.sum_replicate, smul_eq_mul]

theorem flatMap_rangeMap_getD (g : ℕ → ℕ → α) (R C r c : ℕ) (d : α)
    (hr : r < R) (hc : c < C) :
    ((List.range R).flatMap fun r => (List.range C).map (g r)).getD (r * C + c) d = g r c := by
  rw [List.flatMap_def]
  rw [flatten_getD d _ C (by intro row hrow; rcases List.mem_map.1 hrow with ⟨a, _, rfl⟩; simp)
    r c (by simpa using hr) hc]
  rw [rangeMap_getD, if_pos hr, rangeMap_getD, if_pos hc]

/-! ### What decoding an encoded plan yields -/

theorem toUint8_lt (n : ℤ) : toUint8 n < 256 := by
  rw [toUint8]
  omega

/-! ### Decoding an encoded plan -/

theorem bytesToBits_bitsToBytes_len (bits : List Bool) (n : ℕ) (h : bits.length = n) :
    bytesToBits (bitsToBytes bits) n = bits := by
  rw [← h, bytesToBits_bitsToBytes]

set_option maxHeartbeats 1000000 in
theorem decode_encode (p : GridPlan) (R C : ℕ) (hR : 1 ≤ R) (hC : 1 ≤ C)
    (hlen : p.tiles.length = R) (hrows : ∀ row ∈ p.tiles, row.length = C) :
    decode (encode p) = Except.ok
      { tiles := p.tiles
        summits := (List.range (R + 1)).map fun (i : ℕ) =>
          (List.range (C + 1)).map fun (j : ℕ) =>
            resolveSummit p.tiles i j (summitActiveBit p i j)
        opengrid_type := p.opengrid_type
        screw_size := roundScrew p.screw_size } := by
  have hcols : (p.tiles.headD []).length = C := by
    rcases hT : p.tiles with _ | ⟨row, rest⟩
    · rw [hT] at hlen
      simp at hlen
      omega
    · have hmem : row ∈ p.tiles := by rw [hT]; simp
      have := hrows row hmem
      simpa using this
  simp only [decode, encode_splitOn, encodeParts_eq, hlen, hcols]
  have hscrew : b64urlDecode (b64urlEncode [toUint8 (jsRound (p.screw_size.diameter * 10)),
      toUint8 (jsRound (p.screw_size.head_diameter * 10)),
      toUint8 (jsRound (p.screw_size.head_inset * 10))]) =
      [toUint8 (jsRound (p.screw_size.diameter * 10)),
        toUint8 (jsRound (p.screw_size.head_diameter * 10)),
        toUint8 (jsRound (p.screw_size.head_inset * 10))] := by
    apply b64_roundtrip
    intro b hb
    simp only [List.mem_cons, List.not_mem_nil, or_false] at hb
    rcases hb with rfl | rfl | rfl <;> exact toUint8_lt _
  have htblen : ((List.range R).flatMap fun (r : ℕ) =>
      (List.range C).map fun (c : ℕ) => (p.tiles.getD r []).getD c false).length = R * C :=
    length_flatMap_rangeMap _ R C
  have htdata : b64urlDecode (b64urlEncode (bitsToBytes ((List.range R).flatMap fun (r : ℕ) =>
      (List.range C).map fun (c : ℕ) => (p.tiles.getD r []).getD c false))) =
      bitsToBytes ((List.range R).flatMap fun (r : ℕ) =>
        (List.range C).map fun (c : ℕ) => (p.tiles.getD r []).getD c false) :=
    b64_roundtrip _ (bitsToBytes_lt _)
  have hfblen : ((List.range (R + 1)).flatMap fun (i : ℕ) =>
      (List.range (C + 1)).map fun (j : ℕ) =>
        ((p.summits.getD i []).getD j emptySummit).connector_angle.isSome ||
          ((p.summits.getD i []).getD j emptySummit).tile_chamfer ||
          ((p.summits.getD i []).getD j emptySummit).screw).length = (R + 1) * (C + 1) :=
    length_flatMap_rangeMap _ (R + 1) (C + 1)
  have hfdata : b64urlDecode (b64urlEncode (bitsToBytes ((List.range (R + 1)).flatMap fun (i : ℕ) =>
      (List.range (C + 1)).map fun (j : ℕ) =>
        ((p.summits.getD i []).getD j emptySummit).connector_angle.isSome ||
          ((p.summits.getD i []).getD j emptySummit).tile_chamfer ||
          ((p.summits.getD i []).getD j emptySummit).screw))) =
      bitsToBytes ((List.range (R + 1)).flatMap fun (i : ℕ) =>
        (List.range (C + 1)).map fun (j : ℕ) =>
          ((p.summits.getD i []).getD j emptySummit).connector_angle.isSome ||
            ((p.summits.getD i []).getD j emptySummit).tile_chamfer ||
            ((p.summits.getD i []).getD j emptySummit).screw) :=
    b64_roundtrip _ (bitsToBytes_lt _)
  have hrebuild : (List.range R).map (fun (rr : ℕ) => (List.range C).map fun (cc : ℕ) =>
      ((List.range R).flatMap fun (r : ℕ) =>
        (List.range C).map fun (c : ℕ) => (p.tiles.getD r []).getD c false).getD
        (rr * C + cc) false) = p.tiles := by
    rw [show (List.range R).map (fun (rr : ℕ) => (List.range C).map fun (cc : ℕ) =>
        ((List.range R).flatMap fun (r : ℕ) =>
          (List.range C).map fun (c : ℕ) => (p.tiles.getD r []).getD c false).getD
          (rr * C + cc) false) =
      (List.range R).map (fun (rr : ℕ) => (List.range C).map fun (cc : ℕ) =>
        (p.tiles.getD rr []).getD cc false) from ?_]
    · exact grid_ext false p.tiles R C hlen hrows
    · apply List.map_congr_left
      intro r hr
      apply List.map_congr_left
      intro c hc
      exact flatMap_rangeMap_getD _ R C r c false (List.mem_range.1 hr) (List.mem_range.1 hc)
  rcases htype : p.opengrid_type with _ | _
  · simp only [decodeFields, parseIntTS_natToChars, hscrew, htdata, hfdata]
    rw [if_neg (show ¬(['0'] ≠ ['0']) from by simp)]
    rw [if_neg (show ¬(['f'] ≠ ['f'] ∧ ['f'] ≠ ['l']) from by simp)]
    rw [if_neg (show ¬((R : ℤ) < 1 ∨ (C : ℤ) < 1) from by push_cast; omega)]
    rw [if_neg (show ¬([toUint8 (jsRound (p.screw_size.diameter * 10)),
      toUint8 (jsRound (p.screw_size.head_diameter * 10)),
      toUint8 (jsRound (p.screw_size.head_inset * 10))].length ≠ 3) from by simp)]
    simp only [Int.toNat_natCast]
    rw [length_bitsToBytes, length_bitsToBytes, htblen, hfblen]
    rw [if_neg (lt_irrefl _), if_neg (lt_irrefl _)]
    simp only [bytesToBits_bitsToBytes_len _ _ htblen, bytesToBits_bitsToBytes_len _ _ hfblen]
    simp only [hrebuild]
    congr 1
    congr 1
    apply List.map_congr_left
    intro i hi
    apply List.map_congr_left
    intro j hj
    rw [flatMap_rangeMap_getD _ (R + 1) (C + 1) i j false (List.mem_range.1 hi)
      (List.mem_range.1 hj)]
    simp only [resolveSummit, summitActiveBit, summitAt, eligAt]
  · simp only [decodeFields, parseIntTS_natToChars, hscrew, htdata, hfdata]
    rw [if_neg (show ¬(['0'] ≠ ['0']) from by simp)]
    rw [if_neg (show ¬(['l'] ≠ ['f'] ∧ ['l'] ≠ ['l']) from by simp)]
    rw [if_neg (show ¬((R : ℤ) < 1 ∨ (C : ℤ) < 1) from by push_cast; omega)]
    rw [if_neg (show ¬([toUint8 (jsRound (p.screw_size.diameter * 10)),
      toUint8 (jsRound (p.screw_size.head_diameter * 10)),
      toUint8 (jsRound (p.screw_size.head_inset * 10))].length ≠ 3) from by simp)]
    simp only [Int.toNat_natCast]
    rw [length_bitsToBytes, length_bitsToBytes, htblen, hfblen]
    rw [if_neg (lt_irrefl _), if_neg (lt_irrefl _)]
    simp only [bytesToBits_bitsToBytes_len _ _ htblen, bytesToBits_bitsToBytes_len _ _ hfblen]
    simp only [hrebuild]
    congr 1
    congr 1
    apply List.map_congr_left
    intro i hi
    apply List.map_congr_left
    intro j hj
    rw [flatMap_rangeMap_getD _ (R + 1) (C + 1) i j false (List.mem_range.1 hi)
      (List.mem_range.1 hj)]
    simp only [resolveSummit, summitActiveBit, summitAt, eligAt]

/-! ### Claim support: out-of-range neighbourhoods, chamfer counting -/

theorem isTile_oob_all (tiles : List (List Bool)) (i j : ℕ)
    (h : ¬(i ≤ tiles.length ∧ j ≤ (tiles.headD []).length)) :
    isTile tiles ((i : ℤ) - 1) ((j : ℤ) - 1) = false ∧
      isTile tiles ((i : ℤ) - 1) (j : ℤ) = false ∧
      isTile tiles (i : ℤ) ((j : ℤ) - 1) = false ∧
      isTile tiles (i : ℤ) (j : ℤ) = false := by
  refine ⟨?_, ?_, ?_, ?_⟩ <;> simp only [isTile] <;> rw [if_neg (by push_cast; omega)]

theorem chamfer_count_eq (a b c d : Bool) :
    (([a, b, c, d].filter id).length == 1) =
      decide ((if a then 1 else 0) + (if b then 1 else 0) + (if c then 1 else 0) +
        (if d then (1 : ℕ) else 0) = 1) := by
  cases a <;> cases b <;> cases c <;> cases d <;> decide

/-! ### The claims -/

/-- C3.  Mutual exclusivity: for every tile layout and every summit position
`(i,j)` (in fact for all indices, the grids reading `false` out of range), at
most one of connector, chamfer and screw eligibility holds. -/
theorem C3_eligibility_mutually_exclusive (tiles : List (List Bool)) (i j : ℕ) :
    ¬(eligAt (computeEligibleConnectorPositions tiles) i j = true ∧
        eligAt (computeEligibleChamferPositions tiles) i j = true) ∧
      ¬(eligAt (computeEligibleConnectorPositions tiles) i j = true ∧
        eligAt (computeEligibleScrewPositions tiles) i j = true) ∧
      ¬(eligAt (computeEligibleChamferPositions tiles) i j = true ∧
        eligAt (computeEligibleScrewPositions tiles) i j = true) :=
  elig_exclusive tiles i j

/-- C5.  The eligibility predicate definitions: with the 4 neighbours
`tl,tr,bl,br` read at `(i-1,j-1)`, `(i-1,j)`, `(i,j-1)`, `(i,j)` and
out-of-bounds reads counting as `Hole`, screw eligibility is
`tl && tr && bl && br`, chamfer eligibility is `exactly one neighbour is a
tile`, connector eligibility is the two split patterns; and `isTile` is the
bounds-checked lookup returning `false` out of range. -/
theorem C5_eligibility_definitions (tiles : List (List Bool)) (i j : ℕ) :
    (eligAt (computeEligibleScrewPositions tiles) i j =
      (isTile tiles ((i : ℤ) - 1) ((j : ℤ) - 1) && isTile tiles ((i : ℤ) - 1) (j : ℤ) &&
        isTile tiles (i : ℤ) ((j : ℤ) - 1) && isTile tiles (i : ℤ) (j : ℤ))) ∧
    (eligAt (computeEligibleChamferPositions tiles) i j =
      decide ((if isTile tiles ((i : ℤ) - 1) ((j : ℤ) - 1) then 1 else 0) +
        (if isTile tiles ((i : ℤ) - 1) (j : ℤ) then 1 else 0) +
        (if isTile tiles (i : ℤ) ((j : ℤ) - 1) then 1 else 0) +
        (if isTile tiles (i : ℤ) (j : ℤ) then (1 : ℕ) else 0) = 1)) ∧
    (eligAt (computeEligibleConnectorPositions tiles) i j =
      ((isTile tiles ((i : ℤ) - 1) ((j : ℤ) - 1) == isTile tiles ((i : ℤ) - 1) (j : ℤ) &&
          isTile tiles (i : ℤ) ((j : ℤ) - 1) == isTile tiles (i : ℤ) (j : ℤ) &&
          isTile tiles ((i : ℤ) - 1) ((j : ℤ) - 1) != isTile tiles (i : ℤ) ((j : ℤ) - 1)) ||
        (isTile tiles ((i : ℤ) - 1) ((j : ℤ) - 1) == isTile tiles (i : ℤ) ((j : ℤ) - 1) &&
          isTile tiles ((i : ℤ) - 1) (j : ℤ) == isTile tiles (i : ℤ) (j : ℤ) &&
          isTile tiles ((i : ℤ) - 1) ((j : ℤ) - 1) != isTile tiles ((i : ℤ) - 1) (j : ℤ)))) ∧
    (∀ r c : ℤ, ¬(0 ≤ r ∧ r < (tiles.length : ℤ) ∧ 0 ≤ c ∧
      c < ((tiles.headD []).length : ℤ)) → isTile tiles r c = false) := by
  refine ⟨?_, ?_, ?_, ?_⟩
  · by_cases h : i ≤ tiles.length ∧ j ≤ (tiles.headD []).length
    · rw [screwEntry, if_pos h]
    · obtain ⟨h1, h2, h3, h4⟩ := isTile_oob_all tiles i j h
      rw [screwEntry, if_neg h, h1, h2, h3, h4]
      rfl
  · by_cases h : i ≤ tiles.length ∧ j ≤ (tiles.headD []).length
    · rw [chamferEntry, if_pos h, chamfer_count_eq]
    · obtain ⟨h1, h2, h3, h4⟩ := isTile_oob_all tiles i j h
      rw [chamferEntry, if_neg h, h1, h2, h3, h4]
      rfl
  · by_cases h : i ≤ tiles.length ∧ j ≤ (tiles.headD []).length
    · rw [connectorEntry, if_pos h]
    · obtain ⟨h1, h2, h3, h4⟩ := isTile_oob_all tiles i j h
      rw [connectorEntry, if_neg h, h1, h2, h3, h4]
      rfl
  · intro r c h
    simp only [isTile]
    rw [if_neg h]

/-- C6.  Connector direction: `-90` on a horizontal split whose bottom side
is the tile side, else `90`; `0` on a vertical split whose top-right side is
the tile side, else `180`; `0` when neither split matches.  In the 2×2
all-tile grid, summit `(0,1)` is connector-eligible with direction `-90`,
and summit `(1,1)` is screw-eligible but neither connector- nor
chamfer-eligible. -/
theorem C6_connector_direction (tiles : List (List Bool)) (i j : ℤ) :
    (computeConnectorDirection tiles i j =
      if isTile tiles (i - 1) (j - 1) == isTile tiles (i - 1) j &&
          isTile tiles i (j - 1) == isTile tiles i j &&
          isTile tiles (i - 1) (j - 1) != isTile tiles i (j - 1) then
        (if isTile tiles i (j - 1) then -90 else 90)
      else if isTile tiles (i - 1) (j - 1) == isTile tiles i (j - 1) &&
          isTile tiles (i - 1) j == isTile tiles i j &&
          isTile tiles (i - 1) (j - 1) != isTile tiles (i - 1) j then
        (if isTile tiles (i - 1) j then 0 else 180)
      else 0) ∧
    eligAt (computeEligibleConnectorPositions [[true, true], [true, true]]) 0 1 = true ∧
    computeConnectorDirection [[true, true], [true, true]] 0 1 = -90 ∧
    eligAt (computeEligibleScrewPositions [[true, true], [true, true]]) 1 1 = true ∧
    eligAt (computeEligibleConnectorPositions [[true, true], [true, true]]) 1 1 = false ∧
    eligAt (computeEligibleChamferPositions [[true, true], [true, true]]) 1 1 = false :=
  ⟨rfl, by decide, by decide, by decide, by decide, by decide⟩

/-- C7.  Corner screws: a position of the screw-eligibility grid is kept iff
it is eligible and has neither both horizontal nor both vertical
neighbours eligible (out-of-grid reads ineligible); on the 3×3 all-tile
grid the eligible positions are the interior 2×2 block of the 4×4 summit
grid and all four are corners; on the 4×4 all-tile grid the eligible 3×3
block keeps exactly its four outer corners. -/
theorem C7_corner_screws :
    (∀ (g : List (List Bool)) (i j : ℕ), i < g.length → j < (g.headD []).length →
      eligAt (computeCornerScrewPositions g) i j =
        ((g.getD i []).getD j false &&
          (!(isEligibleAt g (i : ℤ) ((j : ℤ) - 1) && isEligibleAt g (i : ℤ) ((j : ℤ) + 1)) &&
            !(isEligibleAt g ((i : ℤ) - 1) (j : ℤ) && isEligibleAt g ((i : ℤ) + 1) (j : ℤ))))) ∧
    computeEligibleScrewPositions (List.replicate 3 (List.replicate 3 true)) =
      [[false, false, false, false], [false, true, true, false],
        [false, true, true, false], [false, false, false, false]] ∧
    computeCornerScrewPositions
        (computeEligibleScrewPositions (List.replicate 3 (List.replicate 3 true))) =
      [[false, false, false, false], [false, true, true, false],
        [false, true, true, false], [false, false, false, false]] ∧
    computeEligibleScrewPositions (List.replicate 4 (List.replicate 4 true)) =
      [[false, false, false, false, false], [false, true, true, true, false],
        [false, true, true, true, false], [false, true, true, true, false],
        [false, false, false, false, false]] ∧
    computeCornerScrewPositions
        (computeEligibleScrewPositions (List.replicate 4 (List.replicate 4 true))) =
      [[false, false, false, false, false], [false, true, false, true, false],
        [false, false, false, false, false], [false, true, false, true, false],
        [false, false, false, false, false]] := by
  refine ⟨?_, by decide, by decide, by decide, by decide⟩
  intro g i j hi hj
  simp only [computeCornerScrewPositions, eligAt]
  rw [rangeMap_getD, if_pos hi, rangeMap_getD, if_pos hj]
  rcases helig : (g.getD i []).getD j false with _ | _ <;> simp [helig]

/-- C7 witness: the general corner characterisation applied to the 3×3
all-tile screw grid at position (1,1). -/
theorem C7_corner_screws_witness :
    eligAt (computeCornerScrewPositions
        (computeEligibleScrewPositions (List.replicate 3 (List.replicate 3 true)))) 1 1 =
      (((computeEligibleScrewPositions (List.replicate 3 (List.replicate 3 true))).getD 1
          []).getD 1 false &&
        (!(isEligibleAt (computeEligibleScrewPositions (List.replicate 3 (List.replicate 3 true)))
            (1 : ℤ) ((1 : ℤ) - 1) &&
          isEligibleAt (computeEligibleScrewPositions (List.replicate 3 (List.replicate 3 true)))
            (1 : ℤ) ((1 : ℤ) + 1)) &&
          !(isEligibleAt (computeEligibleScrewPositions (List.replicate 3 (List.replicate 3 true)))
              ((1 : ℤ) - 1) (1 : ℤ) &&
            isEligibleAt (computeEligibleScrewPositions (List.replicate 3 (List.replicate 3 true)))
              ((1 : ℤ) + 1) (1 : ℤ)))) :=
  C7_corner_screws.1 (computeEligibleScrewPositions (List.replicate 3 (List.replicate 3 true)))
    1 1 (by decide) (by decide)

/-- C9.  Pruning is idempotent, and one application already leaves no active
feature whose governing eligibility entry is false. -/
theorem C9_prune_idempotent (s : List (List SummitFeatures)) (e : Eligibility) :
    pruneSummits (pruneSummits s e) e = pruneSummits s e ∧
      ConsistentSummits (pruneSummits s e) e :=
  ⟨pruneSummits_idem s e, pruneSummits_consistent s e⟩

/-! ### Editor dimensions never fall below 1×1 -/

theorem headD_replicate {n : ℕ} (a d : α) (h : 1 ≤ n) :
    (List.replicate n a).headD d = a := by
  cases n with
  | zero => omega
  | succ m => rfl

theorem length_headD_modify (F : List Bool → List Bool)
    (hF : ∀ x, (F x).length = x.length) (r : ℕ) (l : List (List Bool)) :
    ((List.modify F r l).headD []).length = (l.headD []).length := by
  rcases l with _ | ⟨row, rest⟩
  · simp [List.modify_nil]
  · cases r with
    | zero => simp [List.modify_zero_cons, hF]
    | succ n => simp [List.modify_succ_cons]

theorem headD_dropLast (l : List (List Bool)) (h : 2 ≤ l.length) :
    l.dropLast.headD [] = l.headD [] := by
  rcases l with _ | ⟨a, _ | ⟨b, rest⟩⟩ <;> simp_all

theorem reachable_dims (st : EditorState) (h : Reachable st) :
    1 ≤ editorRows st ∧ 1 ≤ editorCols st := by
  induction h with
  | init rows cols hr hc =>
    constructor
    · simpa [editorRows, initialState, createEmptyGridTiles] using hr
    · simp only [editorCols, initialState, createEmptyGridTiles]
      rw [headD_replicate _ _ hr]
      simpa using hc
  | step_setOpengridType t _ ih => exact ih
  | step_setScrewSize x _ ih => exact ih
  | step_toggleTile r c _ _ _ ih =>
    constructor
    · have := ih.1
      simpa [toggleTile, editorRows] using this
    · have := ih.2
      simp only [toggleTile, editorCols] at *
      rw [length_headD_modify _ (fun x => by simp) r]
      exact this
  | step_toggleConnector i j _ ih =>
    rw [toggleConnector]
    split
    · exact ih
    · exact ih
  | step_toggleChamfer i j _ ih =>
    rw [toggleChamfer]
    split
    · exact ih
    · exact ih
  | step_toggleScrew i j _ ih =>
    rw [toggleScrew]
    split
    · exact ih
    · exact ih
  | step_addRow hre ih =>
    rename_i st'
    constructor
    · simp [addRow, editorRows]
    · have h1 := ih.1
      have h2 := ih.2
      rcases hT : st'.tiles with _ | ⟨row, rest⟩
      · rw [editorRows, hT] at h1
        simp at h1
      · simp only [addRow, editorCols, hT] at *
        simpa using h2
  | step_removeRow _ ih =>
    rw [removeRow]
    split
    · exact ih
    · rename_i hgt
      constructor
      · simp only [editorRows, List.length_dropLast]
        rw [editorRows] at hgt
        omega
      · rw [editorCols] at *
        rw [headD_dropLast _ (by rw [editorRows] at hgt; omega)]
        exact ih.2
  | step_addColumn hre ih =>
    rename_i st'
    constructor
    · have := ih.1
      simpa [addColumn, editorRows] using this
    · have h1 := ih.1
      rcases hT : st'.tiles with _ | ⟨row, rest⟩
      · rw [editorRows, hT] at h1
        simp at h1
      · simp [addColumn, editorCols, hT]
  | step_removeColumn hre ih =>
    rename_i st'
    rw [removeColumn]
    split
    · exact ih
    · rename_i hgt
      have h1 := ih.1
      constructor
      · simpa [editorRows] using h1
      · rcases hT : st'.tiles with _ | ⟨row, rest⟩
        · rw [editorRows, hT] at h1
          simp at h1
        · rw [editorCols] at hgt
          simp only [editorCols, hT, List.headD_cons] at *
          simp only [List.map_cons, List.headD_cons, List.length_dropLast]
          omega
  | step_enableAllConnectors _ ih => exact ih
  | step_enableAllChamfers _ ih => exact ih
  | step_enableAllScrews _ ih => exact ih
  | step_enableCornerScrews _ ih => exact ih
  | step_clearAllConnectors _ ih => exact ih
  | step_clearAllChamfers _ ih => exact ih
  | step_clearAllScrews _ ih => exact ih

/-- C8.  Removing the last row or column is rejected: with exactly one tile
row `removeRow` is the identity, with exactly one column `removeColumn` is
the identity, and every reachable editor state keeps at least a 1×1 grid. -/
theorem C8_minimum_grid_size :
    (∀ st : EditorState, editorRows st = 1 → removeRow st = st) ∧
      (∀ st : EditorState, editorCols st = 1 → removeColumn st = st) ∧
      (∀ st : EditorState, Reachable st → 1 ≤ editorRows st ∧ 1 ≤ editorCols st) := by
  refine ⟨?_, ?_, reachable_dims⟩
  · intro st h
    rw [removeRow, if_pos (by omega)]
  · intro st h
    rw [removeColumn, if_pos (by omega)]

/-- C8 witness: the 1×1 initial grid rejects `removeRow` and `removeColumn`,
and is reachable with positive dimensions. -/
theorem C8_minimum_grid_size_witness :
    editorRows (initialState 1 1) = 1 ∧ removeRow (initialState 1 1) = initialState 1 1 ∧
      editorCols (initialState 1 1) = 1 ∧
      removeColumn (initialState 1 1) = initialState 1 1 ∧
      (1 ≤ editorRows (initialState 1 1) ∧ 1 ≤ editorCols (initialState 1 1)) :=
  ⟨by decide, C8_minimum_grid_size.1 (initialState 1 1) (by decide), by decide,
    C8_minimum_grid_size.2.1 (initialState 1 1) (by decide),
    C8_minimum_grid_size.2.2 (initialState 1 1) (Reachable.init 1 1 le_rfl le_rfl)⟩

/-! ### C2: pruning after editor operations -/

/-- C2 counterexample: place a chamfer at summit (1,1) of the 1×1 all-tile
grid, then `addRow`.  The resulting state is reachable, still records the
chamfer, and chamfer eligibility no longer holds there — `addRow` does not
re-run eligibility and prune. -/
theorem C2_counterexample :
    Reachable (addRow (toggleChamfer 1 1 (initialState 1 1))) ∧
      (summitAt (addRow (toggleChamfer 1 1 (initialState 1 1))).summits 1 1).tile_chamfer =
        true ∧
      eligAt (computeEligibleChamferPositions
        (addRow (toggleChamfer 1 1 (initialState 1 1))).tiles) 1 1 = false :=
  ⟨Reachable.step_addRow (Reachable.step_toggleChamfer 1 1 (Reachable.init 1 1 le_rfl le_rfl)),
    by decide, by decide⟩

/-- C2 (amended).  `toggleTile`, `removeRow` (with more than one row) and
`removeColumn` (with more than one column) re-run eligibility and prune, so
their results record no active feature at an ineligible summit; `addRow` and
`addColumn` do not prune, so this is not an invariant of all reachable
states (see the counterexample). -/
theorem C2_prune_after_operations (st : EditorState) :
    (∀ r c : ℕ, ConsistentState (toggleTile r c st)) ∧
      (1 < editorRows st → ConsistentState (removeRow st)) ∧
      (1 < editorCols st → ConsistentState (removeColumn st)) := by
  refine ⟨?_, ?_, ?_⟩
  · intro r c
    rw [ConsistentState]
    simp only [toggleTile]
    exact pruneSummits_consistent _ _
  · intro h
    rw [ConsistentState, removeRow, if_neg (by omega)]
    exact pruneSummits_consistent _ _
  · intro h
    rw [ConsistentState, removeColumn, if_neg (by omega)]
    exact pruneSummits_consistent _ _

/-- C2 witness: removing a row of the 2×2 initial grid yields an
eligibility-consistent state. -/
theorem C2_prune_after_operations_witness :
    1 < editorRows (initialState 2 2) ∧ ConsistentState (removeRow (initialState 2 2)) :=
  ⟨by decide, (C2_prune_after_operations (initialState 2 2)).2.1 (by decide)⟩

theorem decodeFields_err_iff (v t r c s ti f : List Char) :
    (∃ e, decodeFields v t r c s ti f = Except.error e) ↔
      decodeFieldsFailB v t r c s ti f = true := by
  rw [decodeFields, decodeFieldsFailB]
  rcases hr : parseIntTS r with _ | rv <;> rcases hc : parseIntTS c with _ | cv <;>
    simp only [hr, hc]
  · split_ifs <;> exact iff_of_true ⟨_, rfl⟩ (by simp)
  · split_ifs <;> exact iff_of_true ⟨_, rfl⟩ (by simp)
  · split_ifs <;> exact iff_of_true ⟨_, rfl⟩ (by simp)
  · by_cases h1 : v ≠ ['0']
    · rw [if_pos h1]
      exact iff_of_true ⟨_, rfl⟩ (by simp [h1])
    rw [if_neg h1]
    by_cases h2 : t ≠ ['f'] ∧ t ≠ ['l']
    · rw [if_pos h2]
      exact iff_of_true ⟨_, rfl⟩ (by simp [h2.1, h2.2])
    rw [if_neg h2]
    by_cases h3 : rv < 1 ∨ cv < 1
    · rw [if_pos h3]
      refine iff_of_true ⟨_, rfl⟩ ?_
      rcases h3 with h | h <;> simp [h]
    rw [if_neg h3]
    by_cases h4 : (b64urlDecode s).length ≠ 3
    · rw [if_pos h4]
      exact iff_of_true ⟨_, rfl⟩ (by simp [h4])
    rw [if_neg h4]
    by_cases h5 : (b64urlDecode ti).length < (rv.toNat * cv.toNat + 7) / 8
    · rw [if_pos h5]
      exact iff_of_true ⟨_, rfl⟩ (by simp [h5])
    rw [if_neg h5]
    by_cases h6 : (b64urlDecode f).length < ((rv.toNat + 1) * (cv.toNat + 1) + 7) / 8
    · rw [if_pos h6]
      exact iff_of_true ⟨_, rfl⟩ (by simp [h6])
    rw [if_neg h6]
    refine iff_of_false ?_ ?_
    · rintro ⟨e, hh⟩
      exact Except.noConfusion hh
    · simp only [Bool.or_eq_true, Bool.and_eq_true, decide_eq_true_eq]
      tauto

theorem decode_error_iff (code : List Char) :
    (∃ e, decode code = Except.error e) ↔ decodeFailB code = true := by
  rw [decode, decodeFailB]
  rcases hp : code.splitOn ('.') with _ | ⟨p1, _ | ⟨p2, _ | ⟨p3, _ | ⟨p4, _ | ⟨p5, _ |
    ⟨p6, _ | ⟨p7, _ | ⟨p8, tail⟩⟩⟩⟩⟩⟩⟩⟩
  · exact iff_of_true ⟨_, rfl⟩ rfl
  · exact iff_of_true ⟨_, rfl⟩ rfl
  · exact iff_of_true ⟨_, rfl⟩ rfl
  · exact iff_of_true ⟨_, rfl⟩ rfl
  · exact iff_of_true ⟨_, rfl⟩ rfl
  · exact iff_of_true ⟨_, rfl⟩ rfl
  · exact iff_of_true ⟨_, rfl⟩ rfl
  · exact decodeFields_err_iff p1 p2 p3 p4 p5 p6 p7
  · exact iff_of_true ⟨_, rfl⟩ rfl

theorem decodeFields_ok_summits (v t r c s ti f : List Char) (q : GridPlan)
    (hd : decodeFields v t r c s ti f = Except.ok q) :
    ∃ (rows cols : ℕ) (bits : ℕ → ℕ → Bool),
      q.summits = (List.range (rows + 1)).map fun (i : ℕ) =>
        (List.range (cols + 1)).map fun (j : ℕ) => resolveSummit q.tiles i j (bits i j) := by
  rw [decodeFields] at hd
  rcases hr : parseIntTS r with _ | rv <;> rcases hc : parseIntTS c with _ | cv <;>
    simp only [hr, hc] at hd
  · by_cases h1 : v ≠ ['0']
    · rw [if_pos h1] at hd
      exact Except.noConfusion hd
    rw [if_neg h1] at hd
    by_cases h2 : t ≠ ['f'] ∧ t ≠ ['l']
    · rw [if_pos h2] at hd
      exact Except.noConfusion hd
    rw [if_neg h2] at hd
    exact Except.noConfusion hd
  · by_cases h1 : v ≠ ['0']
    · rw [if_pos h1] at hd
      exact Except.noConfusion hd
    rw [if_neg h1] at hd
    by_cases h2 : t ≠ ['f'] ∧ t ≠ ['l']
    · rw [if_pos h2] at hd
      exact Except.noConfusion hd
    rw [if_neg h2] at hd
    exact Except.noConfusion hd
  · by_cases h1 : v ≠ ['0']
    · rw [if_pos h1] at hd
      exact Except.noConfusion hd
    rw [if_neg h1] at hd
    by_cases h2 : t ≠ ['f'] ∧ t ≠ ['l']
    · rw [if_pos h2] at hd
      exact Except.noConfusion hd
    rw [if_neg h2] at hd
    exact Except.noConfusion hd
  · by_cases h1 : v ≠ ['0']
    · rw [if_pos h1] at hd
      exact Except.noConfusion hd
    rw [if_neg h1] at hd
    by_cases h2 : t ≠ ['f'] ∧ t ≠ ['l']
    · rw [if_pos h2] at hd
      exact Except.noConfusion hd
    rw [if_neg h2] at hd
    by_cases h3 : rv < 1 ∨ cv < 1
    · rw [if_pos h3] at hd
      exact Except.noConfusion hd
    rw [if_neg h3] at hd
    by_cases h4 : (b64urlDecode s).length ≠ 3
    · rw [if_pos h4] at hd
      exact Except.noConfusion hd
    rw [if_neg h4] at hd
    by_cases h5 : (b64urlDecode ti).length < (rv.toNat * cv.toNat + 7) / 8
    · rw [if_pos h5] at hd
      exact Except.noConfusion hd
    rw [if_neg h5] at hd
    by_cases h6 : (b64urlDecode f).length < ((rv.toNat + 1) * (cv.toNat + 1) + 7) / 8
    · rw [if_pos h6] at hd
      exact Except.noConfusion hd
    rw [if_neg h6] at hd
    have hq := Except.ok.inj hd
    subst hq
    refine ⟨rv.toNat, cv.toNat,
      fun i j => (bytesToBits (b64urlDecode f) ((rv.toNat + 1) * (cv.toNat + 1))).getD
        (i * (cv.toNat + 1) + j) false, ?_⟩
    simp only [resolveSummit, eligAt]

theorem decode_ok_summits (code : List Char) (q : GridPlan)
    (hd : decode code = Except.ok q) :
    ∃ (rows cols : ℕ) (bits : ℕ → ℕ → Bool),
      q.summits = (List.range (rows + 1)).map fun (i : ℕ) =>
        (List.range (cols + 1)).map fun (j : ℕ) => resolveSummit q.tiles i j (bits i j) := by
  rw [decode] at hd
  rcases hp : code.splitOn ('.') with _ | ⟨p1, _ | ⟨p2, _ | ⟨p3, _ | ⟨p4, _ | ⟨p5, _ |
    ⟨p6, _ | ⟨p7, _ | ⟨p8, tail⟩⟩⟩⟩⟩⟩⟩⟩ <;> rw [hp] at hd
  · exact Except.noConfusion hd
  · exact Except.noConfusion hd
  · exact Except.noConfusion hd
  · exact Except.noConfusion hd
  · exact Except.noConfusion hd
  · exact Except.noConfusion hd
  · exact Except.noConfusion hd
  · exact decodeFields_ok_summits p1 p2 p3 p4 p5 p6 p7 q hd
  · exact Except.noConfusion hd

theorem decode_ok_summit_empty (code : List Char) (q : GridPlan) (i j : ℕ)
    (hd : decode code = Except.ok q)
    (h1 : eligAt (computeEligibleConnectorPositions q.tiles) i j = false)
    (h2 : eligAt (computeEligibleChamferPositions q.tiles) i j = false)
    (h3 : eligAt (computeEligibleScrewPositions q.tiles) i j = false) :
    summitAt q.summits i j = emptySummit := by
  obtain ⟨rows, cols, bits, hs⟩ := decode_ok_summits code q hd
  rw [summitAt, hs, rangeMap_getD]
  by_cases hi : i < rows + 1
  · rw [if_pos hi, rangeMap_getD]
    by_cases hj : j < cols + 1
    · rw [if_pos hj, resolveSummit, h1, h2, h3]
      cases bits i j <;> simp
    · rw [if_neg hj]
  · rw [if_neg hi]
    rfl

theorem decodeFailB_false_ok (code : List Char) (h : decodeFailB code = false) :
    ∃ q, decode code = Except.ok q := by
  rcases hok : decode code with e | q
  · exact absurd ((decode_error_iff code).1 ⟨e, hok⟩) (by simp [h])
  · exact ⟨q, rfl⟩

/-- C4: `decode` raises exactly when one of the spec's validation conditions
holds (field count ≠ 7; version ≠ "0"; type-char not `f`/`l`; rows or cols
non-numeric or < 1; screw payload ≠ 3 bytes; tile payload shorter than
⌈rows·cols/8⌉ bytes; summit payload shorter than ⌈(rows+1)(cols+1)/8⌉ bytes),
and on any other input it succeeds. -/
theorem C4_decode_validation :
    ∀ code : List Char,
      ((∃ e, decode code = Except.error e) ↔ decodeFailB code = true) ∧
        (decodeFailB code = false → ∃ q, decode code = Except.ok q) :=
  fun code => ⟨decode_error_iff code, decodeFailB_false_ok code⟩

/-- C10: a code that passes validation always decodes successfully, and every
summit of a decoded plan at which none of the three eligibility predicates
holds carries no active feature: an activity bit set at an ineligible summit
is silently cleared.  The concrete code `0.f.1.1.AAAA.AA.8A` (single hidden
tile, all four summit-activity bits set) decodes to a plan whose summits are
all empty. -/
theorem C10_decode_clears_ineligible_bits :
    (∀ code : List Char, decodeFailB code = false → ∃ q, decode code = Except.ok q) ∧
      (∀ (code : List Char) (q : GridPlan) (i j : ℕ), decode code = Except.ok q →
        eligAt (computeEligibleConnectorPositions q.tiles) i j = false →
        eligAt (computeEligibleChamferPositions q.tiles) i j = false →
        eligAt (computeEligibleScrewPositions q.tiles) i j = false →
        summitAt q.summits i j = emptySummit) ∧
      decode c10code = Except.ok c10plan ∧
      (∀ i j : ℕ, i ≤ 1 → j ≤ 1 →
        bitAt (b64urlDecode ['8', 'A']) (i * 2 + j) = true ∧
        eligAt (computeEligibleConnectorPositions c10plan.tiles) i j = false ∧
        eligAt (computeEligibleChamferPositions c10plan.tiles) i j = false ∧
        eligAt (computeEligibleScrewPositions c10plan.tiles) i j = false ∧
        summitAt c10plan.summits i j = emptySummit) := by
  refine ⟨decodeFailB_false_ok, ?_, rfl, ?_⟩
  · intro code q i j hd h1 h2 h3
    exact decode_ok_summit_empty code q i j hd h1 h2 h3
  · intro i j hi hj
    interval_cases i <;> interval_cases j <;>
      exact ⟨by decide, by decide, by decide, by decide, rfl⟩

theorem angles_of_bounded (s : List (List SummitFeatures)) (tiles : List (List Bool))
    (h : ∀ i < s.length, ∀ j < (s.getD i []).length,
      (summitAt s i j).connector_angle.isSome = true →
      (summitAt s i j).connector_angle =
        some (computeConnectorDirection tiles (i : ℤ) (j : ℤ))) :
    ∀ i j : ℕ, (summitAt s i j).connector_angle.isSome = true →
      (summitAt s i j).connector_angle =
        some (computeConnectorDirection tiles (i : ℤ) (j : ℤ)) := by
  intro i j hx
  rcases Nat.lt_or_ge i s.length with hi | hi
  · rcases Nat.lt_or_ge j (s.getD i []).length with hj | hj
    · exact h i hi j hj hx
    · rw [summitAt, List.getD_eq_default _ _ hj] at hx
      simp [emptySummit] at hx
  · rw [summitAt, List.getD_eq_default _ _ hi] at hx
    simp [emptySummit] at hx

theorem resolve_eq_summit (p : GridPlan)
    (hcons : ConsistentSummits p.summits (computeAllEligibility p.tiles))
    (hangles : ∀ i j : ℕ, (summitAt p.summits i j).connector_angle.isSome = true →
      (summitAt p.summits i j).connector_angle =
        some (computeConnectorDirection p.tiles (i : ℤ) (j : ℤ)))
    (i j : ℕ) :
    resolveSummit p.tiles i j (summitActiveBit p i j) = summitAt p.summits i j := by
  obtain ⟨hc1, hc2, hc3⟩ := hcons i j
  obtain ⟨he1, he2, he3⟩ := elig_exclusive p.tiles i j
  have hang := hangles i j
  rw [summitActiveBit]
  rcases hS : summitAt p.summits i j with ⟨ang, cham, scr⟩
  rw [hS] at hc1 hc2 hc3 hang
  dsimp only at hc1 hc2 hc3 hang ⊢
  rcases ang with _ | a <;> rcases cham with _ | _ <;> rcases scr with _ | _
  · simp [resolveSummit, emptySummit]
  · have hs : eligAt (computeEligibleScrewPositions p.tiles) i j = true := hc3 rfl
    have hcf : eligAt (computeEligibleConnectorPositions p.tiles) i j = false := by
      rcases h : eligAt (computeEligibleConnectorPositions p.tiles) i j with _ | _
      · rfl
      · exact absurd ⟨h, hs⟩ he2
    have hchf : eligAt (computeEligibleChamferPositions p.tiles) i j = false := by
      rcases h : eligAt (computeEligibleChamferPositions p.tiles) i j with _ | _
      · rfl
      · exact absurd ⟨h, hs⟩ he3
    simp [resolveSummit, hcf, hchf, hs]
  · have hch : eligAt (computeEligibleChamferPositions p.tiles) i j = true := hc2 rfl
    have hcf : eligAt (computeEligibleConnectorPositions p.tiles) i j = false := by
      rcases h : eligAt (computeEligibleConnectorPositions p.tiles) i j with _ | _
      · rfl
      · exact absurd ⟨h, hch⟩ he1
    simp [resolveSummit, hcf, hch]
  · exact absurd ⟨hc2 rfl, hc3 rfl⟩ he3
  · have hcn : eligAt (computeEligibleConnectorPositions p.tiles) i j = true := hc1 rfl
    have hd := hang rfl
    rw [Option.some.injEq] at hd
    simp [resolveSummit, hcn, hd]
  · exact absurd ⟨hc1 rfl, hc3 rfl⟩ he2
  · exact absurd ⟨hc1 rfl, hc2 rfl⟩ he1
  · exact absurd ⟨hc1 rfl, hc2 rfl⟩ he1

/-- C1 (amended).  For an eligibility-consistent plan with stored connector
angles matching `computeConnectorDirection`, decoding the encoded wire string
reproduces the tiles, the summits (feature kinds and connector angles) and the
grid-type tag exactly, and the screw size to 0.1 mm through one byte per
field. -/
theorem C1_roundtrip (p : GridPlan) (R C : ℕ) (hR : 1 ≤ R) (hC : 1 ≤ C)
    (hlen : p.tiles.length = R) (hrows : ∀ row ∈ p.tiles, row.length = C)
    (hslen : p.summits.length = R + 1)
    (hsrows : ∀ row ∈ p.summits, row.length = C + 1)
    (hcons : ConsistentSummits p.summits (computeAllEligibility p.tiles))
    (hangles : ∀ i j : ℕ, (summitAt p.summits i j).connector_angle.isSome = true →
      (summitAt p.summits i j).connector_angle =
        some (computeConnectorDirection p.tiles (i : ℤ) (j : ℤ))) :
    decode (encode p) = Except.ok
      { tiles := p.tiles
        summits := p.summits
        opengrid_type := p.opengrid_type
        screw_size := roundScrew p.screw_size } := by
  have hde := decode_encode p R C hR hC hlen hrows
  have hsum : ((List.range (R + 1)).map fun (i : ℕ) =>
      (List.range (C + 1)).map fun (j : ℕ) =>
        resolveSummit p.tiles i j (summitActiveBit p i j)) = p.summits := by
    have h2 : ∀ i j : ℕ, resolveSummit p.tiles i j (summitActiveBit p i j) =
        (p.summits.getD i []).getD j emptySummit := by
      intro i j
      rw [resolve_eq_summit p hcons hangles i j, summitAt]
    simp only [h2]
    exact grid_ext emptySummit p.summits (R + 1) (C + 1) hslen hsrows
  rw [hde, hsum]

/-- C1 witness: a concrete 2×2 plan carrying a chamfer, a connector and a
screw satisfies the amended hypotheses and round-trips. -/
theorem C1_roundtrip_witness :
    c1plan.tiles.length = 2 ∧ (∀ row ∈ c1plan.tiles, row.length = 2) ∧
      c1plan.summits.length = 2 + 1 ∧ (∀ row ∈ c1plan.summits, row.length = 2 + 1) ∧
      ConsistentSummits c1plan.summits (computeAllEligibility c1plan.tiles) ∧
      decode (encode c1plan) = Except.ok
        { tiles := c1plan.tiles
          summits := c1plan.summits
          opengrid_type := c1plan.opengrid_type
          screw_size := roundScrew c1plan.screw_size } :=
  ⟨by decide, by decide, by decide, by decide,
    ConsistentSummits_of_bounded _ _ (by decide),
    C1_roundtrip c1plan 2 2 (by decide) (by decide) (by decide) (by decide) (by decide)
      (by decide) (ConsistentSummits_of_bounded _ _ (by decide))
      (angles_of_bounded _ _ (by decide))⟩

/-- C1 counterexample: the editor state reached by toggling the chamfer at
summit (1,1) of a 1×1 grid and then adding a row yields a plan whose summit
(1,1) has its chamfer set, yet decoding its encoding returns that summit with
the chamfer cleared: the unqualified round-trip law over all editor-producible
plans fails. -/
theorem C1_roundtrip_counterexample :
    Reachable (addRow (toggleChamfer 1 1 (initialState 1 1))) ∧
      (summitAt (toGridPlan (addRow (toggleChamfer 1 1 (initialState 1 1)))).summits 1
          1).tile_chamfer = true ∧
      Except.map (fun q => (summitAt q.summits 1 1).tile_chamfer)
          (decode (encode (toGridPlan (addRow (toggleChamfer 1 1 (initialState 1 1)))))) =
        Except.ok false := by
  refine ⟨Reachable.step_addRow (Reachable.step_toggleChamfer 1 1
    (Reachable.init 1 1 le_rfl le_rfl)), by decide, ?_⟩
  have hde := decode_encode (toGridPlan (addRow (toggleChamfer 1 1 (initialState 1 1)))) 2 1
    (by decide) (by decide) (by decide) (by decide)
  rw [hde]
  rfl

end Ogt
